import Mathlib

/-!
# Verification of the Billing_Analysis roster/attendance reconciliation views

A shallow embedding of `src/view.py` (the single source file of the
repository): the time normalizer `to_safe_time`, the fuzzy name
reconciliation performed in `FileUploadView.post`, the roster and
attendance ingestion loops, and the query handlers of `SearchView`
(`_get_date_range`, `_perform_count`, `_find_low_hours`,
`_find_non_pl_low_hours`, `_perform_search`).

Modelling conventions:
* Pandas dataframes become Lean lists of row structures; cell values that
  can be NaN/None become `Option` values.
* `datetime.date` / `datetime.time` become the `Date` / `Time` structures
  below; the ordering used by the database layer is the calendar order,
  encoded through `Date.code` / `Time.secs`.
* The Django ORM stores are lists of records; `update_or_create` keyed on
  `(name, date)` becomes `upsertBy` below (replace-in-place when the key
  exists, append otherwise), which is what an upsert-by-unique-key store
  provides.
* The repository's `models.py` is not part of the sources; field types of
  the two record structures follow the spec's §3 data model (`name` and
  `schedule` are plain strings, the remaining attendance payload fields
  are nullable).
* External library calls (pandas date/string parsing, the rapidfuzz
  `token_set_ratio` scorer) are injected as function parameters; the
  selection logic of `process.extractOne` (highest score, first maximum
  on ties) is embedded explicitly since the upload view's behaviour
  depends on it.
* Python exceptions that escape a loop body (a `ValueError` from
  `datetime.time` inside `to_safe_time`) are modelled with `Except`.
-/

deriving instance DecidableEq for Except

/-- Gregorian leap-year test, as implemented by Python's `datetime`. -/
def isLeapYear (y : Nat) : Bool :=
  (y % 4 == 0 && y % 100 != 0) || y % 400 == 0

/-- Number of days of month `m` of year `y` (Python `calendar`/`datetime`). -/
def daysInMonth (y m : Nat) : Nat :=
  if m = 2 then (if isLeapYear y then 29 else 28)
  else if m = 4 ∨ m = 6 ∨ m = 9 ∨ m = 11 then 30
  else 31

/-- A calendar date (`datetime.date`). Validity is tracked separately by
`isValidDate`, mirroring the `ValueError` raised by the Python constructor. -/
structure Date where
  year : Nat
  month : Nat
  day : Nat
deriving DecidableEq, Repr

/-- The range check performed by `datetime.date(year, month, day)`:
the Python constructor raises `ValueError` outside these bounds. -/
def isValidDate (y m d : Nat) : Bool :=
  1 ≤ y && y ≤ 9999 && 1 ≤ m && m ≤ 12 && 1 ≤ d && d ≤ daysInMonth y m

/-- Order-preserving numeric encoding of a date (valid dates have
`month < 100` and `day < 100`, so this is the lexicographic order). -/
def Date.code (d : Date) : Nat :=
  d.year * 10000 + d.month * 100 + d.day

/-- `a <= b` on dates, as the database compares date columns. -/
def Date.leb (a b : Date) : Bool := a.code ≤ b.code

/-- `date__range=[s, e]` membership test. -/
def dinRange (s e d : Date) : Bool := s.leb d && d.leb e

/-- The day after `d` (`datetime.timedelta(days=1)` arithmetic). -/
def nextDay (d : Date) : Date :=
  if d.day < daysInMonth d.year d.month then ⟨d.year, d.month, d.day + 1⟩
  else if d.month < 12 then ⟨d.year, d.month + 1, 1⟩
  else ⟨d.year + 1, 1, 1⟩

/-- `d + datetime.timedelta(days=n)`. -/
def addDays (d : Date) : Nat → Date
  | 0 => d
  | n + 1 => addDays (nextDay d) n

/-- The day before `d`. -/
def prevDay (d : Date) : Date :=
  if 1 < d.day then ⟨d.year, d.month, d.day - 1⟩
  else if 1 < d.month then ⟨d.year, d.month - 1, daysInMonth d.year (d.month - 1)⟩
  else ⟨d.year - 1, 12, 31⟩

/-- `d - datetime.timedelta(days=n)`. -/
def subDays (d : Date) : Nat → Date
  | 0 => d
  | n + 1 => subDays (prevDay d) n

/-- A time of day (`datetime.time`), seconds precision — the only
precision `to_safe_time` produces. -/
structure Time where
  hour : Nat
  minute : Nat
  second : Nat
deriving DecidableEq, Repr

/-- Seconds since midnight: the order in which the database compares
time columns. -/
def Time.secs (t : Time) : Nat := t.hour * 3600 + t.minute * 60 + t.second

/-- Python `int()` applied to a rational: truncation toward zero. -/
def pyInt (q : ℚ) : Int :=
  if q < 0 then -(Int.floor (-q)) else Int.floor q

/-- One spreadsheet cell as seen by `to_safe_time`: missing (NaN/None),
an already-parsed `datetime.time`, a numeric value, or free text. -/
inductive Cell where
  | missing
  | timeVal (t : Time)
  | num (q : ℚ)
  | text (s : String)
deriving DecidableEq, Repr

/-- `to_safe_time` (view.py lines 12–24).  `pt` is the injected
`pd.to_datetime(str(t), errors='coerce').time()` parser used on the text
branch (returning `none` both for coerced NaT and for the caught
`ValueError`/`TypeError`).  On the numeric branch Python computes
`int(t*86400)`, clamps with `min(·, 86399)` and decomposes with `divmod`;
a negative result makes `datetime.time(hours, ...)` raise `ValueError`,
which escapes `to_safe_time` (the surrounding `try` only covers the text
branch) — modelled as `.error`. -/
def toSafeTime (pt : String → Option Time) : Cell → Except String (Option Time)
  | .missing => .ok none
  | .timeVal t => .ok (some t)
  | .num q =>
    let ts : Int := min (pyInt (q * 86400)) 86399
    if ts < 0 then .error "ValueError: hour must be in 0..23"
    else .ok (some ⟨ts.toNat / 3600, ts.toNat % 3600 / 60, ts.toNat % 3600 % 60⟩)
  | .text s => .ok (pt s)

example : toSafeTime (fun _ => none) (.num (1/2)) = .ok (some ⟨12, 0, 0⟩) := by
  norm_num [toSafeTime, pyInt]
  decide
example : toSafeTime (fun _ => none) (.num 2) = .ok (some ⟨23, 59, 59⟩) := by
  norm_num [toSafeTime, pyInt]
  decide
example : addDays ⟨2024, 2, 28⟩ 4 = ⟨2024, 3, 3⟩ := by decide
example : subDays ⟨2024, 3, 1⟩ 1 = ⟨2024, 2, 29⟩ := by decide

/-- A stored `Roster` row (spec §3 RosterRecord; `models.py` is not among
the sources, so field types follow the spec: `schedule` is the shift-code
string, empty for a blank cell, and `team` is the nullable `sr no` cell). -/
structure RosterRec where
  name : String
  date : Date
  team : Option String
  schedule : String
deriving DecidableEq, Repr

/-- A stored `Attendance` row (spec §3 AttendanceRecord). -/
structure AttRec where
  name : String
  date : Date
  employeeId : Option String
  userType : Option String
  designation : Option String
  department : Option String
  location : Option String
  firstIn : Option Time
  lastOut : Option Time
  grossTime : Option Time
  outOfOfficeTime : Option Time
  outOfOfficeCount : Option Nat
  netOfficeTime : Option Time
deriving DecidableEq, Repr

/-- The `(name, date)` unique key of a roster row. -/
def rosterKey (r : RosterRec) : String × Date := (r.name, r.date)

/-- The `(name, date)` unique key of an attendance row. -/
def attKey (a : AttRec) : String × Date := (a.name, a.date)

/-- Python `str.lower()` / SQL `LOWER` (ASCII case folding, written over
the character list so that it evaluates by kernel reduction). -/
def pyLower (s : String) : String := ⟨s.data.map Char.toLower⟩

/-- Python `str.upper()`. -/
def pyUpper (s : String) : String := ⟨s.data.map Char.toUpper⟩

/-- `str(col_name).isdigit()` plus `int(col_name)`: `some` exactly for a
non-empty all-digit string. -/
def digitsToNat (s : String) : Option Nat :=
  if s.data ≠ [] ∧ s.data.all (·.isDigit) then
    some (s.data.foldl (fun n c => n * 10 + (c.toNat - 48)) 0)
  else none

/-- `Model.objects.update_or_create(key..., defaults=...)`: if a row with
the key exists it is updated in place (the defaults cover every non-key
field, so the updated row equals `r`), otherwise `r` is inserted. -/
def upsertBy {α κ : Type} [DecidableEq κ] (key : α → κ) (r : α) (s : List α) : List α :=
  if s.any (fun x => key x = key r) then
    s.map (fun x => if key x = key r then r else x)
  else s ++ [r]

/-- A sequence of upserts, in row order (the ingestion loops). -/
def foldUpsert {α κ : Type} [DecidableEq κ] (key : α → κ) (s : List α) (rs : List α) : List α :=
  rs.foldl (fun st r => upsertBy key r st) s

/-- `rapidfuzz.process.extractOne(q, choices, scorer=...)`: scan the
choices keeping the best score, replacing only on a strict improvement
(so a tie keeps the first maximum); `None` on an empty choice list. -/
def extractOne (scorer : String → String → Nat) (q : String) : List String → Option (String × Nat)
  | [] => none
  | c :: cs =>
    some (cs.foldl (fun best x => if best.2 < scorer q x then (x, scorer q x) else best)
      (c, scorer q c))

/-- The `name_map` loop of `FileUploadView.post` (lines 53–58): for each
raw attendance name take the best-scoring canonical name and keep the
mapping only when the best score is at least 90.  Python dict insertion
order becomes list order. -/
def buildNameMap (scorer : String → String → Nat) (rosterNames : List String) :
    List String → List (String × String)
  | [] => []
  | a :: as =>
    match extractOne scorer a rosterNames with
    | some (c, s) =>
      if 90 ≤ s then (a, c) :: buildNameMap scorer rosterNames as
      else buildNameMap scorer rosterNames as
    | none => buildNameMap scorer rosterNames as

/-- Dictionary lookup (`name_map[x]` / `.map(name_map)`). -/
def lookupMap (m : List (String × String)) (a : String) : Option String :=
  (m.find? (fun p => p.1 = a)).map (·.2)

/-- `pandas.Series.unique()`: distinct values, first occurrence order. -/
def uniqueFirst {α : Type} [DecidableEq α] (l : List α) : List α :=
  l.foldl (fun acc a => if a ∈ acc then acc else acc ++ [a]) []

/-- One row of the roster sheet as read on lines 37–38: the `name` and
`sr no` cells (possibly NaN) and the remaining columns as
(header, cell) pairs, a blank schedule cell read as `""`. -/
structure RosterRow where
  name : Option String
  srNo : Option String
  cells : List (String × String)
deriving DecidableEq, Repr

/-- One row of the attendance sheet (lines 39–44), with the date column
already put through `pd.to_datetime(..., dayfirst=True, errors='coerce')`
(an unparseable date is `none`, the parser being external to the repo). -/
structure AttRow where
  adsId : Option String
  rawName : Option String
  userType : Option String
  designation : Option String
  department : Option String
  location : Option String
  firstIn : Cell
  lastOut : Cell
  grossTime : Cell
  outOfOfficeTime : Cell
  outOfOfficeCount : Option Nat
  netOfficeTime : Cell
  attendanceDate : Option Date
deriving DecidableEq, Repr

/-- A roster row that survived `roster_df[roster_df['name'].isin(matched_names)]`
(so its `name` cell is present). -/
structure PRosterRow where
  name : String
  srNo : Option String
  cells : List (String × String)
deriving DecidableEq, Repr

/-- An attendance row that survived `attendance_df.dropna(subset=['name'])`
after `attendance_df['name'] = ...map(name_map)`: it carries the mapped
canonical name. -/
structure PAttRow where
  name : String
  row : AttRow
deriving DecidableEq, Repr

/-- The records produced from one roster row by `_process_roster_data`
(lines 75–88): for every column whose header is a digit string, build
`datetime.date(year, month, int(col))`; a `ValueError` (day invalid for
the month) skips just that cell (`continue`). -/
def rosterRowRecords (year month : Nat) (row : PRosterRow) : List RosterRec :=
  row.cells.filterMap (fun cell =>
    match digitsToNat cell.1 with
    | some day =>
      if isValidDate year month day then
        some ⟨row.name, ⟨year, month, day⟩, row.srNo, cell.2⟩
      else none
    | none => none)

/-- `_process_roster_data`: the nested loop is a sequence of upserts of
the per-cell records. -/
def processRosterData (store : List RosterRec) (rows : List PRosterRow)
    (year month : Nat) : List RosterRec :=
  foldUpsert rosterKey store (rows.flatMap (rosterRowRecords year month))

/-- The `defaults` dictionary of `_process_attendance_data` (lines
96–104): the five `to_safe_time` conversions may raise, which aborts
the request. -/
def buildAttRec (pt : String → Option Time) (name : String) (d : Date) (row : AttRow) :
    Except String AttRec :=
  match toSafeTime pt row.firstIn with
  | .error e => .error e
  | .ok fi =>
    match toSafeTime pt row.lastOut with
    | .error e => .error e
    | .ok lo =>
      match toSafeTime pt row.grossTime with
      | .error e => .error e
      | .ok gt =>
        match toSafeTime pt row.outOfOfficeTime with
        | .error e => .error e
        | .ok oot =>
          match toSafeTime pt row.netOfficeTime with
          | .error e => .error e
          | .ok net =>
            .ok ⟨name, d, row.adsId, row.userType, row.designation, row.department,
              row.location, fi, lo, gt, oot, row.outOfOfficeCount, net⟩

/-- `_process_attendance_data` (lines 90–107): a row whose date did not
parse is skipped (`continue`); otherwise the record is upserted on
`(name, date)`.  An exception aborts the loop (the store state at that
point is not observable through the 500 response, so the error case
carries no store). -/
def processAttendanceData (pt : String → Option Time) (store : List AttRec) :
    List PAttRow → Except String (List AttRec)
  | [] => .ok store
  | r :: rs =>
    match r.row.attendanceDate with
    | none => processAttendanceData pt store rs
    | some d =>
      match buildAttRec pt r.name d r.row with
      | .error e => .error e
      | .ok rec => processAttendanceData pt (upsertBy attKey rec store) rs

/-- `roster_df['name'].dropna().unique().tolist()` (line 50). -/
def rosterNamesOf (rosterDf : List RosterRow) : List String :=
  uniqueFirst (rosterDf.filterMap (·.name))

/-- `attendance_df['name_in_attendance'].dropna().unique().tolist()` (line 51). -/
def attNamesOf (attDf : List AttRow) : List String :=
  uniqueFirst (attDf.filterMap (·.rawName))

/-- The `name_map` built by the upload view for a given pair of files. -/
def uploadNameMap (scorer : String → String → Nat) (rosterDf : List RosterRow)
    (attDf : List AttRow) : List (String × String) :=
  buildNameMap scorer (rosterNamesOf rosterDf) (attNamesOf attDf)

/-- `matched_names = list(name_map.values())` (line 61). -/
def matchedNames (scorer : String → String → Nat) (rosterDf : List RosterRow)
    (attDf : List AttRow) : List String :=
  (uploadNameMap scorer rosterDf attDf).map (·.2)

/-- `roster_df = roster_df[roster_df['name'].isin(matched_names)]` (line 62);
a NaN name is not `isin` any list. -/
def filteredRosterRows (scorer : String → String → Nat) (rosterDf : List RosterRow)
    (attDf : List AttRow) : List PRosterRow :=
  rosterDf.filterMap (fun row =>
    match row.name with
    | some n =>
      if n ∈ matchedNames scorer rosterDf attDf then some ⟨n, row.srNo, row.cells⟩ else none
    | none => none)

/-- Lines 60 and 63: `attendance_df['name'] = attendance_df['name_in_attendance']
.map(name_map)` followed by `dropna(subset=['name'])`: a row survives with
the mapped canonical name exactly when its raw name is present and mapped. -/
def filteredAttRows (scorer : String → String → Nat) (rosterDf : List RosterRow)
    (attDf : List AttRow) : List PAttRow :=
  attDf.filterMap (fun row =>
    match row.rawName.bind (lookupMap (uploadNameMap scorer rosterDf attDf)) with
    | some cn => some ⟨cn, row⟩
    | none => none)

/-- Lines 46–48: the first parseable attendance date, whose year/month
anchor the roster; `.iloc[0]` on an empty selection raises. -/
def firstValidDate (attDf : List AttRow) : Option Date :=
  (attDf.filterMap (·.attendanceDate)).head?

/-- `FileUploadView.post` (lines 27–73) after both files parsed, acting on
the two stores; `.error` is the 500 response path. -/
def uploadPost (scorer : String → String → Nat) (pt : String → Option Time)
    (rosterDf : List RosterRow) (attDf : List AttRow)
    (stores : List RosterRec × List AttRec) : Except String (List RosterRec × List AttRec) :=
  match firstValidDate attDf with
  | none => .error "IndexError: single positional indexer is out-of-bounds"
  | some fv =>
    let rs := processRosterData stores.1 (filteredRosterRows scorer rosterDf attDf)
      fv.year fv.month
    match processAttendanceData pt stores.2 (filteredAttRows scorer rosterDf attDf) with
    | .error e => .error e
    | .ok as2 => .ok (rs, as2)

/-- The query parameters read by `SearchView` (dates already parsed by
`pd.to_datetime(...).date()`, which is external). -/
structure QueryParams where
  q : Option String
  id : Option String
  teamname : Option String
  shift : Option String
  startDate : Option Date
  endDate : Option Date
deriving DecidableEq, Repr

/-- Python truthiness of an optional query parameter (`if query:` —
absent and empty string are both falsy). -/
def truthy : Option String → Bool
  | none => false
  | some s => s ≠ ""

/-- `__iexact` on a non-null column. -/
def iexactS (s q : String) : Bool := pyLower s == pyLower q

/-- `__iexact` on a nullable column: SQL `NULL` matches nothing. -/
def oiexact : Option String → String → Bool
  | none, _ => false
  | some s, q => iexactS s q

/-- `leadsWith p l`: `p` is an initial run of `l`. -/
def leadsWith : List Char → List Char → Bool
  | [], _ => true
  | _ :: _, [] => false
  | a :: as, b :: bs => a == b && leadsWith as bs

/-- `occursIn p l`: `p` occurs contiguously somewhere in `l`. -/
def occursIn (p : List Char) : List Char → Bool
  | [] => leadsWith p []
  | b :: bs => leadsWith p (b :: bs) || occursIn p bs

/-- `name__icontains=word`: case-insensitive substring test. -/
def icontains (hay sub : String) : Bool :=
  occursIn (pyLower sub).data (pyLower hay).data

/-- The accumulator pass behind `str.split()`: emit maximal non-blank
runs, scanning left to right. -/
def pySplitChars : List Char → List Char → List String
  | [], acc => if acc.isEmpty then [] else [⟨acc.reverse⟩]
  | c :: cs, acc =>
    if c.isWhitespace then
      if acc.isEmpty then pySplitChars cs []
      else ⟨acc.reverse⟩ :: pySplitChars cs []
    else pySplitChars cs (c :: acc)

/-- Python `str.split()` with no argument: whitespace runs, no empties. -/
def pySplit (s : String) : List String := pySplitChars s.data []

/-- `Attendance.objects.order_by('-date').first()` (lines 128–130):
the most recent stored date, `none` on an empty store. -/
def latestDate (store : List AttRec) : Option Date :=
  store.foldl (fun acc r =>
    match acc with
    | none => some r.date
    | some d => if d.code < r.date.code then some r.date else some d) none

/-- `SearchView._get_date_range` (lines 121–134): explicit start (end
defaulting to start), else the calendar month of the most recent stored
attendance date via the `replace(day=28) + 4 days − day` trick; `none`
is the `(None, None)` no-data outcome. -/
def getDateRange (startParam endParam : Option Date) (store : List AttRec) :
    Option (Date × Date) :=
  match startParam with
  | some s => some (s, endParam.getD s)
  | none =>
    match latestDate store with
    | none => none
    | some target =>
      let start : Date := ⟨target.year, target.month, 1⟩
      let nextMonth := addDays ⟨start.year, start.month, 28⟩ 4
      some (start, subDays nextMonth nextMonth.day)

/-- An HTTP response outcome: 400, 404, or a 200/201 payload. -/
inductive Resp (α : Type) where
  | badRequest (msg : String)
  | notFound (msg : String)
  | ok (val : α)
deriving DecidableEq, Repr

/-- `WFO_SCHEDULES` (line 169). -/
def WFO_SCHEDULES : List String := ["WFO-M", "WFO-G", "WFO-G2", "WFO-S", "WFO-N"]

/-- `WFH_SCHEDULES` (line 170). -/
def WFH_SCHEDULES : List String := ["WFH-M", "WFH-G", "WFH-G2", "WFH-S", "WFH-N"]

/-- `str(entry.schedule).upper() if entry.schedule else ""` (line 180):
an empty (falsy) schedule stays empty, anything else is upper-cased. -/
def schedNorm (sched : String) : String :=
  if sched = "" then "" else pyUpper sched

/-- The four counters accumulated by the loop on lines 179–188. -/
structure CountAcc where
  wfo : Nat
  wfh : Nat
  wo : Nat
  pl : Nat
deriving DecidableEq, Repr

/-- The per-entry `if/elif` chain of `_perform_count` (lines 179–188). -/
def tallySchedules (entries : List RosterRec) : CountAcc :=
  entries.foldl (fun c e =>
    let schedule := schedNorm e.schedule
    if schedule ∈ WFO_SCHEDULES then { c with wfo := c.wfo + 1 }
    else if schedule ∈ WFH_SCHEDULES then { c with wfh := c.wfh + 1 }
    else if schedule = "WO" then { c with wo := c.wo + 1 }
    else if schedule = "PL" then { c with pl := c.pl + 1 }
    else c) ⟨0, 0, 0, 0⟩

/-- One element of the `results` list of `_perform_count` (lines 196–202);
`workingDays`/`leaves` are the derived totals of lines 190–191. -/
structure CountResult where
  employee : String
  employeeId : Option String
  periodStart : Date
  periodEnd : Date
  counts : CountAcc
  workingDays : Nat
  leaves : Nat
deriving DecidableEq, Repr

/-- The body of the `for name in employee_names` loop (lines 172–202). -/
def mkCountResult (rostersQuery : List RosterRec) (attStore : List AttRec)
    (s e : Date) (n : String) : CountResult :=
  let acc := tallySchedules (rostersQuery.filter (fun r => r.name = n))
  { employee := n
    employeeId := ((attStore.filter (fun a => a.name = n)).head?).bind (·.employeeId)
    periodStart := s
    periodEnd := e
    counts := acc
    workingDays := acc.wfo + acc.wfh
    leaves := acc.wo + acc.pl }

/-- The candidate names of the `if employee_id:` branch (lines 150–154):
attendance records in range with that id, case-insensitive, distinct. -/
def countNamesById (i : String) (attStore : List AttRec) (s e : Date) : List String :=
  uniqueFirst
    ((attStore.filter (fun a => oiexact a.employeeId i && dinRange s e a.date)).map (·.name))

/-- The candidate names of the `elif query:` branch (lines 158–164):
every word of the query must case-insensitively occur in the name. -/
def countNamesByQuery (q : String) (rostersQuery : List RosterRec) : List String :=
  uniqueFirst
    (((pySplit q).foldl (fun acc w => acc.filter (fun r => icontains r.name w))
      rostersQuery).map (·.name))

/-- `SearchView._perform_count` (lines 136–203). -/
def performCount (p : QueryParams) (rosterStore : List RosterRec)
    (attStore : List AttRec) : Resp (List CountResult) :=
  if ¬ truthy p.q ∧ ¬ truthy p.id then
    .badRequest "A name query (q=...) or an ID query (id=...) is required."
  else
    match getDateRange p.startDate p.endDate attStore with
    | none => .notFound "No data found for the requested period."
    | some (s, e) =>
      if truthy p.id then
        if (countNamesById (p.id.getD "") attStore s e).isEmpty then
          .notFound ("No employee found with ID " ++ p.id.getD "")
        else
          .ok ((countNamesById (p.id.getD "") attStore s e).map
            (mkCountResult (rosterStore.filter (fun r => dinRange s e r.date)) attStore s e))
      else if truthy p.q then
        if (countNamesByQuery (p.q.getD "")
            (rosterStore.filter (fun r => dinRange s e r.date))).isEmpty then
          .notFound ("No employee found matching " ++ p.q.getD "")
        else
          .ok ((countNamesByQuery (p.q.getD "")
              (rosterStore.filter (fun r => dinRange s e r.date))).map
            (mkCountResult (rosterStore.filter (fun r => dinRange s e r.date)) attStore s e))
      else .ok []  -- unreachable: the validation above required q or id

/-- `eight_hours = datetime.time(8, 0)`. -/
def eightHours : Time := ⟨8, 0, 0⟩

/-- `net_office_time__lt=...`: a NULL column compares as no match. -/
def timeLtb : Option Time → Time → Bool
  | none, _ => false
  | some a, b => a.secs < b.secs

/-- One element of `employees_with_low_hours` (lines 226–233). -/
structure LowRow where
  name : String
  employeeId : Option String
  team : Option String
  date : Date
  shift : String
  netOfficeTime : Option Time
deriving DecidableEq, Repr

/-- The dictionary appended for a joined (attendance, roster) pair. -/
def mkLowRow (a : AttRec) (r : RosterRec) : LowRow :=
  ⟨a.name, a.employeeId, r.team, a.date, r.schedule, a.netOfficeTime⟩

/-- `order_by('date', 'name')`. -/
def attSortLe (a b : AttRec) : Bool :=
  a.date.code < b.date.code || (a.date.code == b.date.code && a.name ≤ b.name)

/-- `order_by('date', 'name')` on roster rows. -/
def rosterSortLe (a b : RosterRec) : Bool :=
  a.date.code < b.date.code || (a.date.code == b.date.code && a.name ≤ b.name)

/-- `exclude(Q(schedule__iexact='PL') | Q(schedule__iexact='WO'))`. -/
def lowHoursExcl (r : RosterRec) : Bool :=
  iexactS r.schedule "PL" || iexactS r.schedule "WO"

/-- `exclude(schedule__iexact='PL')`. -/
def nonPlExcl (r : RosterRec) : Bool := iexactS r.schedule "PL"

/-- The roster rows admitted into a `roster_map`: in range, name among
the low-hours names, and not excluded by the variant's shift filter. -/
def exclRosterPool (excl : RosterRec → Bool) (s e : Date) (lowNames : List String)
    (rs : List RosterRec) : List RosterRec :=
  rs.filter (fun r => dinRange s e r.date && r.name ∈ lowNames && !(excl r))

/-- The roster rows admitted into `roster_map` by `_find_low_hours`
(lines 215–220): shift not PL/WO. -/
def lowRosterPool (s e : Date) (lowNames : List String) (rs : List RosterRec) :
    List RosterRec :=
  exclRosterPool lowHoursExcl s e lowNames rs

/-- Python dict comprehension keyed by `(name, date)`: on duplicate keys
the later row wins, so lookup scans the list from the rear. -/
def keyedLookup {α : Type} (key : α → String × Date) (pool : List α)
    (k : String × Date) : Option α :=
  pool.reverse.find? (fun r => key r = k)

/-- The `low_hour_attendances` queryset (lines 210–213): in range, net
office time strictly below eight hours, ordered by date then name. -/
def lowAttsOf (s e : Date) (attStore : List AttRec) : List AttRec :=
  (attStore.filter (fun a =>
    dinRange s e a.date && timeLtb a.netOfficeTime eightHours)).mergeSort attSortLe

/-- `SearchView._find_low_hours` (lines 205–234), returning the joined
rows (the response also carries `len(results)`, derivable). -/
def findLowHours (p : QueryParams) (rs : List RosterRec) (as : List AttRec) :
    Resp (List LowRow) :=
  match getDateRange p.startDate p.endDate as with
  | none => .notFound "No data found."
  | some (s, e) =>
    .ok ((lowAttsOf s e as).filterMap (fun a =>
      (keyedLookup rosterKey
        (lowRosterPool s e ((lowAttsOf s e as).map (·.name)) rs)
        (a.name, a.date)).map (mkLowRow a)))

/-- The roster rows admitted into `roster_map` by `_find_non_pl_low_hours`
(lines 243–248): only PL is excluded. -/
def nonPlRosterPool (s e : Date) (lowNames : List String) (rs : List RosterRec) :
    List RosterRec :=
  exclRosterPool nonPlExcl s e lowNames rs

/-- `SearchView._find_non_pl_low_hours` (lines 236–259). -/
def findNonPlLowHours (p : QueryParams) (rs : List RosterRec) (as : List AttRec) :
    Resp (List LowRow) :=
  match getDateRange p.startDate p.endDate as with
  | none => .notFound "No data found."
  | some (s, e) =>
    .ok ((lowAttsOf s e as).filterMap (fun a =>
      (keyedLookup rosterKey
        (nonPlRosterPool s e ((lowAttsOf s e as).map (·.name)) rs)
        (a.name, a.date)).map (mkLowRow a)))

/-- One element of the `_perform_search` results (lines 306–323). -/
structure SearchRow where
  name : String
  employeeId : Option String
  team : Option String
  date : Date
  schedule : String
  department : Option String
  firstIn : Option Time
  lastOut : Option Time
  grossTime : Option Time
  outOfOfficeTime : Option Time
  outOfOfficeCount : Option Nat
  netOfficeTime : Option Time
deriving DecidableEq, Repr

/-- A roster row left-joined to its (possibly absent) attendance record. -/
def mkSearchRow (r : RosterRec) (oa : Option AttRec) : SearchRow :=
  ⟨r.name, oa.bind (·.employeeId), r.team, r.date, r.schedule,
    oa.bind (·.department), oa.bind (·.firstIn), oa.bind (·.lastOut),
    oa.bind (·.grossTime), oa.bind (·.outOfOfficeTime),
    oa.bind (·.outOfOfficeCount), oa.bind (·.netOfficeTime)⟩

/-- `SearchView._perform_search` (lines 261–324).  When the id filter
matches nobody the view returns `Response([])` — an empty 200, not 404. -/
def performSearch (p : QueryParams) (rs : List RosterRec) (as : List AttRec) :
    Resp (List SearchRow) :=
  match getDateRange p.startDate p.endDate as with
  | none => .notFound "No data found for the requested period."
  | some (s, e) =>
    let rosters0 := rs.filter (fun r => dinRange s e r.date)
    let afterId : Option (List RosterRec) :=
      if truthy p.id then
        let i := p.id.getD ""
        let namesWithId := uniqueFirst
          ((as.filter (fun a => oiexact a.employeeId i && dinRange s e a.date)).map (·.name))
        if namesWithId.isEmpty then none
        else some (rosters0.filter (fun r => r.name ∈ namesWithId))
      else some rosters0
    match afterId with
    | none => .ok []
    | some rosters1 =>
      let rosters2 :=
        if truthy p.teamname then rosters1.filter (fun r => oiexact r.team (p.teamname.getD ""))
        else rosters1
      let rosters3 :=
        if truthy p.q then
          (pySplit (p.q.getD "")).foldl (fun acc w => acc.filter (fun r => icontains r.name w))
            rosters2
        else rosters2
      let rosters4 :=
        if truthy p.shift then rosters3.filter (fun r => iexactS r.schedule (p.shift.getD ""))
        else rosters3
      let sorted := rosters4.mergeSort rosterSortLe
      let namesToFetch := uniqueFirst (sorted.map (·.name))
      let attData := as.filter (fun a => a.name ∈ namesToFetch && dinRange s e a.date)
      .ok (sorted.map (fun r => mkSearchRow r (keyedLookup attKey attData (r.name, r.date))))

/-- Lookup of the row with key `k` (what `update_or_create` and the ORM
`get`/dict lookups observe about a store). -/
def storeFind {α κ : Type} [DecidableEq κ] (key : α → κ) (k : κ) (s : List α) : Option α :=
  s.find? (fun x => key x = k)

theorem mem_upsertBy {α κ : Type} [DecidableEq κ] {key : α → κ} {r x : α} {s : List α}
    (h : x ∈ upsertBy key r s) : x ∈ s ∨ x = r := by
  unfold upsertBy at h
  split at h
  · obtain ⟨y, hy, hfy⟩ := List.mem_map.1 h
    by_cases hk : key y = key r
    · simp [hk] at hfy; exact Or.inr hfy.symm
    · simp [hk] at hfy; exact Or.inl (hfy ▸ hy)
  · rcases List.mem_append.1 h with h' | h'
    · exact Or.inl h'
    · simp at h'; exact Or.inr h'

theorem storeFind_map_ne {α κ : Type} [DecidableEq κ] {key : α → κ} {r : α} {k : κ}
    (s : List α) (hk : key r ≠ k) :
    storeFind key k (s.map (fun x => if key x = key r then r else x)) = storeFind key k s := by
  induction s with
  | nil => rfl
  | cons a t ih =>
    by_cases ha : key a = key r
    · simp only [storeFind, List.map_cons, if_pos ha, List.find?_cons]
      have h1 : (decide (key r = k)) = false := by simp [hk]
      have h2 : (decide (key a = k)) = false := by simp [ha, hk]
      simp only [h1, h2]
      exact ih
    · simp only [storeFind, List.map_cons, if_neg ha, List.find?_cons]
      cases hd : decide (key a = k) <;> simp only [hd]
      exact ih

theorem storeFind_map_eq {α κ : Type} [DecidableEq κ] {key : α → κ} {r : α} {s : List α}
    (hs : s.any (fun x => key x = key r)) :
    storeFind key (key r) (s.map (fun x => if key x = key r then r else x)) = some r := by
  induction s with
  | nil => simp [List.any_nil] at hs
  | cons a t ih =>
    by_cases ha : key a = key r
    · simp [storeFind, List.find?_cons, ha]
    · simp only [List.any_cons, Bool.or_eq_true, decide_eq_true_eq] at hs
      rcases hs with h | h
      · exact absurd h ha
      · simp only [storeFind, List.map_cons, if_neg ha, List.find?_cons]
        have h2 : (decide (key a = key r)) = false := by simp [ha]
        simp only [h2]
        exact ih h

/-- The observable effect of one `update_or_create`. -/
theorem storeFind_upsertBy {α κ : Type} [DecidableEq κ] (key : α → κ) (r : α) (s : List α)
    (k : κ) :
    storeFind key k (upsertBy key r s) =
      if key r = k then some r else storeFind key k s := by
  unfold upsertBy
  by_cases hk : key r = k
  · subst hk
    simp only [if_pos rfl]
    split
    · exact storeFind_map_eq (by assumption)
    · rename_i hany
      have hnone : storeFind key (key r) s = none := by
        rw [storeFind, List.find?_eq_none]
        intro x hx
        simp only [decide_eq_true_eq]
        intro hxk
        exact hany (List.any_eq_true.2 ⟨x, hx, by simp [hxk]⟩)
      rw [storeFind, List.find?_append, ← storeFind, hnone]
      simp [storeFind]
  · simp only [if_neg hk]
    split
    · exact storeFind_map_ne s hk
    · rw [storeFind, List.find?_append, ← storeFind]
      have : List.find? (fun x => decide (key x = k)) [r] = none := by simp [hk]
      rw [this, Option.or_none]

theorem keys_upsertBy_of_mem {α κ : Type} [DecidableEq κ] {key : α → κ} {r : α} {s : List α}
    (h : key r ∈ s.map key) : (upsertBy key r s).map key = s.map key := by
  have hany : s.any (fun x => key x = key r) = true := by
    obtain ⟨x, hx, hkx⟩ := List.mem_map.1 h
    exact List.any_eq_true.2 ⟨x, hx, by simp [hkx]⟩
  unfold upsertBy
  rw [if_pos hany, List.map_map]
  apply List.map_congr_left
  intro x _
  by_cases hx : key x = key r <;> simp [hx]

theorem keys_upsertBy_of_not_mem {α κ : Type} [DecidableEq κ] {key : α → κ} {r : α}
    {s : List α} (h : ¬ key r ∈ s.map key) :
    (upsertBy key r s).map key = s.map key ++ [key r] := by
  have hany : s.any (fun x => key x = key r) = false := by
    rw [List.any_eq_false]
    intro x hx
    simp only [decide_eq_true_eq]
    intro hkx
    exact h (List.mem_map.2 ⟨x, hx, hkx⟩)
  unfold upsertBy
  rw [if_neg (by simp [hany]), List.map_append]
  rfl

theorem keys_upsertBy_sub {α κ : Type} [DecidableEq κ] {key : α → κ} {r : α} {s : List α}
    {k : κ} (h : k ∈ s.map key) : k ∈ (upsertBy key r s).map key := by
  by_cases hm : key r ∈ s.map key
  · rwa [keys_upsertBy_of_mem hm]
  · rw [keys_upsertBy_of_not_mem hm]
    exact List.mem_append.2 (Or.inl h)

theorem key_mem_upsertBy {α κ : Type} [DecidableEq κ] {key : α → κ} (r : α) (s : List α) :
    key r ∈ (upsertBy key r s).map key := by
  by_cases hm : key r ∈ s.map key
  · rwa [keys_upsertBy_of_mem hm]
  · rw [keys_upsertBy_of_not_mem hm]
    simp

theorem nodup_keys_upsertBy {α κ : Type} [DecidableEq κ] {key : α → κ} {r : α} {s : List α}
    (h : (s.map key).Nodup) : ((upsertBy key r s).map key).Nodup := by
  by_cases hm : key r ∈ s.map key
  · rwa [keys_upsertBy_of_mem hm]
  · rw [keys_upsertBy_of_not_mem hm]
    refine List.Nodup.append h (List.nodup_singleton _) ?_
    intro x hx hx2
    simp only [List.mem_singleton] at hx2
    subst hx2
    exact hm hx

/-- Two stores with the same key column (in order), the same lookup
behaviour and no duplicate keys are equal. -/
theorem storeExt {α κ : Type} [DecidableEq κ] {key : α → κ} :
    ∀ {s t : List α}, s.map key = t.map key →
    (∀ k, storeFind key k s = storeFind key k t) → (s.map key).Nodup → s = t
  | [], [], _, _, _ => rfl
  | [], _ :: _, h1, _, _ => by simp at h1
  | _ :: _, [], h1, _, _ => by simp at h1
  | a :: s', b :: t', h1, h2, h3 => by
    simp only [List.map_cons, List.cons.injEq] at h1
    obtain ⟨hab, htl⟩ := h1
    have hfa : storeFind key (key a) (a :: s') = some a := by
      simp [storeFind, List.find?_cons]
    have hfb : storeFind key (key a) (b :: t') = some b := by
      simp [storeFind, List.find?_cons, hab]
    have hab2 : a = b := by
      have := (h2 (key a)).symm.trans hfa
      rw [hfb] at this
      exact Option.some.inj this.symm
    subst hab2
    simp only [List.map_cons, List.nodup_cons] at h3
    have h2' : ∀ k, storeFind key k s' = storeFind key k t' := by
      intro k
      by_cases hk : key a = k
      · subst hk
        have hs : storeFind key (key a) s' = none := by
          rw [storeFind, List.find?_eq_none]
          intro x hx
          simp only [decide_eq_true_eq]
          intro hkx
          exact h3.1 (List.mem_map.2 ⟨x, hx, hkx⟩)
        have ht : storeFind key (key a) t' = none := by
          rw [storeFind, List.find?_eq_none]
          intro x hx
          simp only [decide_eq_true_eq]
          intro hkx
          exact h3.1 (htl ▸ List.mem_map.2 ⟨x, hx, hkx⟩)
        rw [hs, ht]
      · have := h2 k
        simpa [storeFind, List.find?_cons, hk] using this
    rw [storeExt htl h2' h3.2]

theorem foldUpsert_cons {α κ : Type} [DecidableEq κ] (key : α → κ) (s : List α) (r : α)
    (rs : List α) : foldUpsert key s (r :: rs) = foldUpsert key (upsertBy key r s) rs := rfl

/-- What a sequence of upserts does to a single key: the last record of
`rs` with that key, else whatever the store already had. -/
theorem storeFind_foldUpsert {α κ : Type} [DecidableEq κ] (key : α → κ) (k : κ) :
    ∀ (rs : List α) (s : List α),
    storeFind key k (foldUpsert key s rs) =
      (rs.reverse.find? (fun r => key r = k)).or (storeFind key k s)
  | [], s => by simp [foldUpsert]
  | r :: rs, s => by
    rw [foldUpsert_cons, storeFind_foldUpsert key k rs (upsertBy key r s)]
    rw [storeFind_upsertBy]
    rw [List.reverse_cons, List.find?_append, Option.or_assoc]
    congr 1
    by_cases hk : key r = k <;> simp [hk]

theorem keys_foldUpsert_sub {α κ : Type} [DecidableEq κ] {key : α → κ} :
    ∀ {rs s : List α} {k : κ}, k ∈ s.map key → k ∈ (foldUpsert key s rs).map key := by
  intro rs
  induction rs with
  | nil => intro s k h; exact h
  | cons r rs ih =>
    intro s k h
    rw [foldUpsert_cons]
    exact ih (keys_upsertBy_sub h)

theorem key_mem_foldUpsert {α κ : Type} [DecidableEq κ] {key : α → κ} :
    ∀ {rs s : List α} {r : α}, r ∈ rs → key r ∈ (foldUpsert key s rs).map key := by
  intro rs
  induction rs with
  | nil => intro s r h; cases h
  | cons r0 rs ih =>
    intro s r h
    rw [foldUpsert_cons]
    rcases List.mem_cons.1 h with h' | h'
    · subst h'
      exact keys_foldUpsert_sub (key_mem_upsertBy r s)
    · exact ih h'

theorem keys_foldUpsert_of_all_mem {α κ : Type} [DecidableEq κ] {key : α → κ} :
    ∀ {rs s : List α}, (∀ r ∈ rs, key r ∈ s.map key) →
    (foldUpsert key s rs).map key = s.map key := by
  intro rs
  induction rs with
  | nil => intro s _; rfl
  | cons r rs ih =>
    intro s h
    rw [foldUpsert_cons]
    have h1 : (upsertBy key r s).map key = s.map key :=
      keys_upsertBy_of_mem (h r (List.mem_cons_self r rs))
    rw [ih (fun x hx => h1 ▸ h x (List.mem_cons_of_mem r hx)), h1]

theorem nodup_keys_foldUpsert {α κ : Type} [DecidableEq κ] {key : α → κ} :
    ∀ {rs s : List α}, (s.map key).Nodup → ((foldUpsert key s rs).map key).Nodup := by
  intro rs
  induction rs with
  | nil => intro s h; exact h
  | cons r rs ih =>
    intro s h
    rw [foldUpsert_cons]
    exact ih (nodup_keys_upsertBy h)

theorem mem_foldUpsert {α κ : Type} [DecidableEq κ] {key : α → κ} :
    ∀ {rs s : List α} {x : α}, x ∈ foldUpsert key s rs → x ∈ s ∨ x ∈ rs := by
  intro rs
  induction rs with
  | nil => intro s x h; exact Or.inl h
  | cons r rs ih =>
    intro s x h
    rw [foldUpsert_cons] at h
    rcases ih h with h' | h'
    · rcases mem_upsertBy h' with h'' | h''
      · exact Or.inl h''
      · exact Or.inr (h'' ▸ List.mem_cons_self r rs)
    · exact Or.inr (List.mem_cons_of_mem r h')

/-- Replaying the same record sequence over the store it already produced
changes nothing: every key is present, every update rewrites the value
the previous pass left behind. -/
theorem foldUpsert_idem {α κ : Type} [DecidableEq κ] {key : α → κ} {s rs : List α}
    (h : (s.map key).Nodup) :
    foldUpsert key (foldUpsert key s rs) rs = foldUpsert key s rs := by
  refine @storeExt _ _ _ key _ _ ?_ ?_ ?_
  · exact keys_foldUpsert_of_all_mem (fun r hr => key_mem_foldUpsert hr)
  · intro k
    rw [storeFind_foldUpsert, storeFind_foldUpsert]
    cases hfind : rs.reverse.find? (fun r => key r = k) with
    | none => simp [hfind, storeFind_foldUpsert]
    | some v => simp [hfind]
  · exact nodup_keys_foldUpsert (nodup_keys_foldUpsert h)

theorem pyInt_of_nonneg {q : ℚ} (h : 0 ≤ q) : pyInt q = Int.floor q := by
  rw [pyInt, if_neg (not_lt.2 h)]

/-- C4: for a numeric cell value `t ≥ 0` (a fraction of a 24-hour day),
`to_safe_time` truncates `t*86400` to integer seconds, clamps at 86399
and decomposes into hours/minutes/seconds; `0.5` gives 12:00:00, any
`t ≥ 1` clamps to 23:59:59 (never rolling over to the next day), and a
missing/null cell gives the absence marker. -/
theorem toSafeTime_numeric_spec (pt : String → Option Time) (t : ℚ) (h : 0 ≤ t) :
    toSafeTime pt (.num t) =
      .ok (some ⟨(min (Int.floor (t * 86400)) 86399).toNat / 3600,
                 (min (Int.floor (t * 86400)) 86399).toNat % 3600 / 60,
                 (min (Int.floor (t * 86400)) 86399).toNat % 60⟩) ∧
    toSafeTime pt .missing = .ok none ∧
    (t = 1/2 → toSafeTime pt (.num t) = .ok (some ⟨12, 0, 0⟩)) ∧
    (1 ≤ t → toSafeTime pt (.num t) = .ok (some ⟨23, 59, 59⟩)) := by
  have hmul : (0:ℚ) ≤ t * 86400 := mul_nonneg h (by norm_num)
  have hfl : (0:ℤ) ≤ Int.floor (t * 86400) := Int.floor_nonneg.2 hmul
  have hts : ¬ (min (pyInt (t * 86400)) 86399 < 0) := by
    rw [pyInt_of_nonneg hmul]
    omega
  have hmain : toSafeTime pt (.num t) =
      .ok (some ⟨(min (Int.floor (t * 86400)) 86399).toNat / 3600,
                 (min (Int.floor (t * 86400)) 86399).toNat % 3600 / 60,
                 (min (Int.floor (t * 86400)) 86399).toNat % 60⟩) := by
    show (if min (pyInt (t * 86400)) 86399 < 0 then _ else _) = _
    rw [if_neg hts, pyInt_of_nonneg hmul]
    have : ∀ n : Nat, n % 3600 % 60 = n % 60 := fun n =>
      Nat.mod_mod_of_dvd n (by norm_num)
    rw [this]
  refine ⟨hmain, rfl, ?_, ?_⟩
  · rintro rfl
    rw [hmain]
    norm_num
    decide
  · intro h1
    rw [hmain]
    have h86400 : (86400:ℤ) ≤ Int.floor (t * 86400) := by
      rw [Int.le_floor]
      push_cast
      nlinarith
    have : min (Int.floor (t * 86400)) 86399 = 86399 := by omega
    rw [this]
    decide

/-- Witness for C4 at `t = 1` (and the clamped upper boundary). -/
theorem toSafeTime_numeric_spec_witness :
    toSafeTime (fun _ => none) (.num 1) = .ok (some ⟨23, 59, 59⟩) :=
  (toSafeTime_numeric_spec (fun _ => none) 1 (by norm_num)).2.2.2 (le_refl 1)

theorem addDays_four (d : Date) :
    addDays d 4 = nextDay (nextDay (nextDay (nextDay d))) := rfl

theorem subDays_one (d : Date) : subDays d 1 = prevDay d := rfl

theorem subDays_two (d : Date) : subDays d 2 = prevDay (prevDay d) := rfl

theorem subDays_three (d : Date) :
    subDays d 3 = prevDay (prevDay (prevDay d)) := rfl

theorem subDays_four (d : Date) :
    subDays d 4 = prevDay (prevDay (prevDay (prevDay d))) := rfl

/-- The `replace(day=28) + 4 days − day-of-month days` trick of
`_get_date_range` really lands on the last day of the month. -/
theorem monthEnd_trick (y m : Nat) (h1 : 1 ≤ m) (h2 : m ≤ 12) :
    subDays (addDays ⟨y, m, 28⟩ 4) (addDays ⟨y, m, 28⟩ 4).day =
      ⟨y, m, daysInMonth y m⟩ := by
  interval_cases m
  · have e : addDays ⟨y, 1, 28⟩ 4 = ⟨y, 2, 1⟩ := by
      rw [addDays_four,
        show nextDay ⟨y, 1, 28⟩ = ⟨y, 1, 29⟩ from rfl,
        show nextDay ⟨y, 1, 29⟩ = ⟨y, 1, 30⟩ from rfl,
        show nextDay ⟨y, 1, 30⟩ = ⟨y, 1, 31⟩ from rfl,
        show nextDay ⟨y, 1, 31⟩ = ⟨y, 2, 1⟩ from rfl]
    rw [e]
    rw [show (⟨y, 2, 1⟩ : Date).day = 1 from rfl, subDays_one]
    rfl
  · cases hl : isLeapYear y
    · have e : addDays ⟨y, 2, 28⟩ 4 = ⟨y, 3, 4⟩ := by
        rw [addDays_four,
          show nextDay ⟨y, 2, 28⟩ = ⟨y, 3, 1⟩ by simp [nextDay, daysInMonth, hl],
          show nextDay ⟨y, 3, 1⟩ = ⟨y, 3, 2⟩ from rfl,
          show nextDay ⟨y, 3, 2⟩ = ⟨y, 3, 3⟩ from rfl,
          show nextDay ⟨y, 3, 3⟩ = ⟨y, 3, 4⟩ from rfl]
      rw [e]
      rw [show (⟨y, 3, 4⟩ : Date).day = 4 from rfl, subDays_four]
      rw [show prevDay ⟨y, 3, 4⟩ = ⟨y, 3, 3⟩ from rfl,
        show prevDay ⟨y, 3, 3⟩ = ⟨y, 3, 2⟩ from rfl,
        show prevDay ⟨y, 3, 2⟩ = ⟨y, 3, 1⟩ from rfl,
        show prevDay ⟨y, 3, 1⟩ = ⟨y, 2, daysInMonth y 2⟩ from rfl]
    · have e : addDays ⟨y, 2, 28⟩ 4 = ⟨y, 3, 3⟩ := by
        rw [addDays_four,
          show nextDay ⟨y, 2, 28⟩ = ⟨y, 2, 29⟩ by simp [nextDay, daysInMonth, hl],
          show nextDay ⟨y, 2, 29⟩ = ⟨y, 3, 1⟩ by simp [nextDay, daysInMonth, hl],
          show nextDay ⟨y, 3, 1⟩ = ⟨y, 3, 2⟩ from rfl,
          show nextDay ⟨y, 3, 2⟩ = ⟨y, 3, 3⟩ from rfl]
      rw [e]
      rw [show (⟨y, 3, 3⟩ : Date).day = 3 from rfl, subDays_three]
      rw [show prevDay ⟨y, 3, 3⟩ = ⟨y, 3, 2⟩ from rfl,
        show prevDay ⟨y, 3, 2⟩ = ⟨y, 3, 1⟩ from rfl,
        show prevDay ⟨y, 3, 1⟩ = ⟨y, 2, daysInMonth y 2⟩ from rfl]
  · have e : addDays ⟨y, 3, 28⟩ 4 = ⟨y, 4, 1⟩ := by
      rw [addDays_four,
        show nextDay ⟨y, 3, 28⟩ = ⟨y, 3, 29⟩ from rfl,
        show nextDay ⟨y, 3, 29⟩ = ⟨y, 3, 30⟩ from rfl,
        show nextDay ⟨y, 3, 30⟩ = ⟨y, 3, 31⟩ from rfl,
        show nextDay ⟨y, 3, 31⟩ = ⟨y, 4, 1⟩ from rfl]
    rw [e]
    rw [show (⟨y, 4, 1⟩ : Date).day = 1 from rfl, subDays_one]
    rfl
  · have e : addDays ⟨y, 4, 28⟩ 4 = ⟨y, 5, 2⟩ := by
      rw [addDays_four,
        show nextDay ⟨y, 4, 28⟩ = ⟨y, 4, 29⟩ from rfl,
        show nextDay ⟨y, 4, 29⟩ = ⟨y, 4, 30⟩ from rfl,
        show nextDay ⟨y, 4, 30⟩ = ⟨y, 5, 1⟩ from rfl,
        show nextDay ⟨y, 5, 1⟩ = ⟨y, 5, 2⟩ from rfl]
    rw [e]
    rw [show (⟨y, 5, 2⟩ : Date).day = 2 from rfl, subDays_two]
    rw [show prevDay ⟨y, 5, 2⟩ = ⟨y, 5, 1⟩ from rfl]
    rfl
  · have e : addDays ⟨y, 5, 28⟩ 4 = ⟨y, 6, 1⟩ := by
      rw [addDays_four,
        show nextDay ⟨y, 5, 28⟩ = ⟨y, 5, 29⟩ from rfl,
        show nextDay ⟨y, 5, 29⟩ = ⟨y, 5, 30⟩ from rfl,
        show nextDay ⟨y, 5, 30⟩ = ⟨y, 5, 31⟩ from rfl,
        show nextDay ⟨y, 5, 31⟩ = ⟨y, 6, 1⟩ from rfl]
    rw [e]
    rw [show (⟨y, 6, 1⟩ : Date).day = 1 from rfl, subDays_one]
    rfl
  · have e : addDays ⟨y, 6, 28⟩ 4 = ⟨y, 7, 2⟩ := by
      rw [addDays_four,
        show nextDay ⟨y, 6, 28⟩ = ⟨y, 6, 29⟩ from rfl,
        show nextDay ⟨y, 6, 29⟩ = ⟨y, 6, 30⟩ from rfl,
        show nextDay ⟨y, 6, 30⟩ = ⟨y, 7, 1⟩ from rfl,
        show nextDay ⟨y, 7, 1⟩ = ⟨y, 7, 2⟩ from rfl]
    rw [e]
    rw [show (⟨y, 7, 2⟩ : Date).day = 2 from rfl, subDays_two]
    rw [show prevDay ⟨y, 7, 2⟩ = ⟨y, 7, 1⟩ from rfl]
    rfl
  · have e : addDays ⟨y, 7, 28⟩ 4 = ⟨y, 8, 1⟩ := by
      rw [addDays_four,
        show nextDay ⟨y, 7, 28⟩ = ⟨y, 7, 29⟩ from rfl,
        show nextDay ⟨y, 7, 29⟩ = ⟨y, 7, 30⟩ from rfl,
        show nextDay ⟨y, 7, 30⟩ = ⟨y, 7, 31⟩ from rfl,
        show nextDay ⟨y, 7, 31⟩ = ⟨y, 8, 1⟩ from rfl]
    rw [e]
    rw [show (⟨y, 8, 1⟩ : Date).day = 1 from rfl, subDays_one]
    rfl
  · have e : addDays ⟨y, 8, 28⟩ 4 = ⟨y, 9, 1⟩ := by
      rw [addDays_four,
        show nextDay ⟨y, 8, 28⟩ = ⟨y, 8, 29⟩ from rfl,
        show nextDay ⟨y, 8, 29⟩ = ⟨y, 8, 30⟩ from rfl,
        show nextDay ⟨y, 8, 30⟩ = ⟨y, 8, 31⟩ from rfl,
        show nextDay ⟨y, 8, 31⟩ = ⟨y, 9, 1⟩ from rfl]
    rw [e]
    rw [show (⟨y, 9, 1⟩ : Date).day = 1 from rfl, subDays_one]
    rfl
  · have e : addDays ⟨y, 9, 28⟩ 4 = ⟨y, 10, 2⟩ := by
      rw [addDays_four,
        show nextDay ⟨y, 9, 28⟩ = ⟨y, 9, 29⟩ from rfl,
        show nextDay ⟨y, 9, 29⟩ = ⟨y, 9, 30⟩ from rfl,
        show nextDay ⟨y, 9, 30⟩ = ⟨y, 10, 1⟩ from rfl,
        show nextDay ⟨y, 10, 1⟩ = ⟨y, 10, 2⟩ from rfl]
    rw [e]
    rw [show (⟨y, 10, 2⟩ : Date).day = 2 from rfl, subDays_two]
    rw [show prevDay ⟨y, 10, 2⟩ = ⟨y, 10, 1⟩ from rfl]
    rfl
  · have e : addDays ⟨y, 10, 28⟩ 4 = ⟨y, 11, 1⟩ := by
      rw [addDays_four,
        show nextDay ⟨y, 10, 28⟩ = ⟨y, 10, 29⟩ from rfl,
        show nextDay ⟨y, 10, 29⟩ = ⟨y, 10, 30⟩ from rfl,
        show nextDay ⟨y, 10, 30⟩ = ⟨y, 10, 31⟩ from rfl,
        show nextDay ⟨y, 10, 31⟩ = ⟨y, 11, 1⟩ from rfl]
    rw [e]
    rw [show (⟨y, 11, 1⟩ : Date).day = 1 from rfl, subDays_one]
    rfl
  · have e : addDays ⟨y, 11, 28⟩ 4 = ⟨y, 12, 2⟩ := by
      rw [addDays_four,
        show nextDay ⟨y, 11, 28⟩ = ⟨y, 11, 29⟩ from rfl,
        show nextDay ⟨y, 11, 29⟩ = ⟨y, 11, 30⟩ from rfl,
        show nextDay ⟨y, 11, 30⟩ = ⟨y, 12, 1⟩ from rfl,
        show nextDay ⟨y, 12, 1⟩ = ⟨y, 12, 2⟩ from rfl]
    rw [e]
    rw [show (⟨y, 12, 2⟩ : Date).day = 2 from rfl, subDays_two]
    rw [show prevDay ⟨y, 12, 2⟩ = ⟨y, 12, 1⟩ from rfl]
    rfl
  · have e : addDays ⟨y, 12, 28⟩ 4 = ⟨y + 1, 1, 1⟩ := by
      rw [addDays_four,
        show nextDay ⟨y, 12, 28⟩ = ⟨y, 12, 29⟩ from rfl,
        show nextDay ⟨y, 12, 29⟩ = ⟨y, 12, 30⟩ from rfl,
        show nextDay ⟨y, 12, 30⟩ = ⟨y, 12, 31⟩ from rfl,
        show nextDay ⟨y, 12, 31⟩ = ⟨y + 1, 1, 1⟩ from rfl]
    rw [e]
    rw [show (⟨y + 1, 1, 1⟩ : Date).day = 1 from rfl, subDays_one]
    rfl

theorem latestDate_go (step : Option Date → AttRec → Option Date)
    (hstep : step = fun acc r =>
      match acc with
      | none => some r.date
      | some d => if d.code < r.date.code then some r.date else some d) :
    ∀ (l : List AttRec) (d0 : Date), ∃ d : Date,
      l.foldl step (some d0) = some d ∧ (d = d0 ∨ ∃ r ∈ l, r.date = d) ∧
      d0.code ≤ d.code ∧ ∀ r ∈ l, r.date.code ≤ d.code := by
  intro l
  induction l with
  | nil => intro d0; exact ⟨d0, rfl, Or.inl rfl, le_refl _, by simp⟩
  | cons r rest ih =>
    intro d0
    by_cases hlt : d0.code < r.date.code
    · obtain ⟨d, hfold, hmem, hle, hall⟩ := ih r.date
      have hstep1 : step (some d0) r = some r.date := by rw [hstep]; simp [hlt]
      refine ⟨d, ?_, ?_, ?_, ?_⟩
      · rw [List.foldl_cons, hstep1]; exact hfold
      · rcases hmem with h | ⟨x, hx, hxd⟩
        · exact Or.inr ⟨r, List.mem_cons_self r rest, h.symm⟩
        · exact Or.inr ⟨x, List.mem_cons_of_mem r hx, hxd⟩
      · exact le_trans (le_of_lt hlt) hle
      · intro x hx
        rcases List.mem_cons.1 hx with h | h
        · exact h ▸ hle
        · exact hall x h
    · obtain ⟨d, hfold, hmem, hle, hall⟩ := ih d0
      have hstep1 : step (some d0) r = some d0 := by rw [hstep]; simp [hlt]
      refine ⟨d, ?_, ?_, hle, ?_⟩
      · rw [List.foldl_cons, hstep1]; exact hfold
      · rcases hmem with h | ⟨x, hx, hxd⟩
        · exact Or.inl h
        · exact Or.inr ⟨x, List.mem_cons_of_mem r hx, hxd⟩
      · intro x hx
        rcases List.mem_cons.1 hx with h | h
        · exact h ▸ le_trans (le_of_not_lt hlt) hle
        · exact hall x h

/-- `order_by('-date').first()` returns a record carrying the maximum
stored date. -/
theorem latestDate_spec (store : List AttRec) (hne : store ≠ []) :
    ∃ d : Date, latestDate store = some d ∧ (∃ r ∈ store, r.date = d) ∧
      ∀ r ∈ store, r.date.code ≤ d.code := by
  match store, hne with
  | r :: rest, _ =>
    obtain ⟨d, hfold, hmem, hle, hall⟩ := latestDate_go _ rfl rest r.date
    refine ⟨d, ?_, ?_, ?_⟩
    · rw [latestDate, List.foldl_cons]
      exact hfold
    · rcases hmem with h | ⟨x, hx, hxd⟩
      · exact ⟨r, List.mem_cons_self r rest, h.symm⟩
      · exact ⟨x, List.mem_cons_of_mem r hx, hxd⟩
    · intro x hx
      rcases List.mem_cons.1 hx with h | h
      · exact h ▸ hle
      · exact hall x h

/-- An attendance record with only the identifying fields set (used to
instantiate theorems with hypotheses at concrete stores). -/
def sampleAtt (n : String) (d : Date) (eid : Option String) : AttRec :=
  ⟨n, d, eid, none, none, none, none, none, none, none, none, none, none⟩

/-- C6: date-range resolution uses an explicit start date as-is (end
defaulting to start); with no start it spans the calendar month of the
most recent stored attendance date; and an empty attendance store makes
every query action answer the distinct no-data not-found response. -/
theorem getDateRange_spec (p : QueryParams) (rs : List RosterRec) (as : List AttRec) :
    (∀ s : Date, p.startDate = some s →
      getDateRange p.startDate p.endDate as = some (s, p.endDate.getD s)) ∧
    (p.startDate = none → as ≠ [] →
      (∀ r ∈ as, 1 ≤ r.date.month ∧ r.date.month ≤ 12) →
      ∃ d : Date, latestDate as = some d ∧ (∃ r ∈ as, r.date = d) ∧
        (∀ r ∈ as, r.date.code ≤ d.code) ∧
        getDateRange p.startDate p.endDate as =
          some (⟨d.year, d.month, 1⟩, ⟨d.year, d.month, daysInMonth d.year d.month⟩)) ∧
    (p.startDate = none → as = [] →
      getDateRange p.startDate p.endDate as = none ∧
      (truthy p.q = true →
        performCount p rs as = .notFound "No data found for the requested period.") ∧
      findLowHours p rs as = .notFound "No data found." ∧
      findNonPlLowHours p rs as = .notFound "No data found." ∧
      performSearch p rs as = .notFound "No data found for the requested period.") := by
  refine ⟨?_, ?_, ?_⟩
  · intro s hs
    simp [getDateRange, hs]
  · intro hstart hne hmonths
    obtain ⟨d, hd, hmem, hmax⟩ := latestDate_spec as hne
    refine ⟨d, hd, hmem, hmax, ?_⟩
    obtain ⟨r, hr, hrd⟩ := hmem
    obtain ⟨hm1, hm2⟩ := hmonths r hr
    rw [hrd] at hm1 hm2
    simp only [getDateRange, hstart, hd]
    rw [monthEnd_trick d.year d.month hm1 hm2]
  · intro hstart hempty
    subst hempty
    have hrange : getDateRange p.startDate p.endDate ([] : List AttRec) = none := by
      simp [getDateRange, hstart, latestDate]
    refine ⟨hrange, ?_, ?_, ?_, ?_⟩
    · intro hq
      rw [performCount, if_neg (by simp [hq]), hrange]
    · rw [findLowHours, hrange]
    · rw [findNonPlLowHours, hrange]
    · rw [performSearch, hrange]

/-- Witness for C6: a store whose single record is dated 2024-05-07
resolves to May 2024, and the empty store yields not-found on count. -/
theorem getDateRange_spec_witness :
    getDateRange none none [sampleAtt "A" ⟨2024, 5, 7⟩ none] =
      some (⟨2024, 5, 1⟩, ⟨2024, 5, 31⟩) ∧
    performCount ⟨some "x", none, none, none, none, none⟩ [] [] =
      .notFound "No data found for the requested period." := by
  constructor
  · obtain ⟨d, hd, _, _, heq⟩ :=
      (getDateRange_spec ⟨some "x", none, none, none, none, none⟩ []
        [sampleAtt "A" ⟨2024, 5, 7⟩ none]).2.1 rfl (by decide) (by decide)
    have hdv : d = ⟨2024, 5, 7⟩ := by
      have h0 : latestDate [sampleAtt "A" ⟨2024, 5, 7⟩ none] = some ⟨2024, 5, 7⟩ := rfl
      rw [h0] at hd
      exact (Option.some.inj hd).symm
    subst hdv
    exact heq
  · exact ((getDateRange_spec ⟨some "x", none, none, none, none, none⟩ [] []).2.2
      rfl rfl).2.1 rfl

/-- The spec's "best token-set similarity score" of a raw name against
the canonical list (0 when the list is empty). -/
def bestScoreOf (scorer : String → String → Nat) (a : String) (rosterNames : List String) : Nat :=
  (rosterNames.map (scorer a)).foldr max 0

theorem extractOne_go (scorer : String → String → Nat) (q : String) :
    ∀ (cs : List String) (c0 : String) (s0 : Nat) (r : String × Nat),
    cs.foldl (fun best x => if best.2 < scorer q x then (x, scorer q x) else best) (c0, s0) = r →
    r.2 = max s0 ((cs.map (scorer q)).foldr max 0) ∧
    (r = (c0, s0) ∨ (s0 < r.2 ∧ cs.find? (fun x => scorer q x == r.2) = some r.1)) := by
  intro cs
  induction cs with
  | nil =>
    intro c0 s0 r h
    simp only [List.foldl_nil] at h
    subst h
    exact ⟨by simp, Or.inl rfl⟩
  | cons x xs ih =>
    intro c0 s0 r h
    rw [List.foldl_cons] at h
    by_cases hlt : s0 < scorer q x
    · rw [if_pos hlt] at h
      obtain ⟨h2, hdisj⟩ := ih x (scorer q x) r h
      have hr2 : s0 ≤ r.2 := le_trans (le_of_lt hlt) (h2 ▸ Nat.le_max_left _ _)
      constructor
      · rw [List.map_cons, List.foldr_cons, h2]
        exact (Nat.max_eq_right (le_trans (le_of_lt hlt) (Nat.le_max_left _ _))).symm
      · rcases hdisj with h' | ⟨h3, h4⟩
        · subst h'
          refine Or.inr ⟨hlt, ?_⟩
          rw [List.find?_cons_of_pos _ (by simp)]
        · refine Or.inr ⟨lt_trans hlt h3, ?_⟩
          rw [List.find?_cons_of_neg _ (by simp; omega), h4]
    · rw [if_neg hlt] at h
      obtain ⟨h2, hdisj⟩ := ih c0 s0 r h
      have hxle : scorer q x ≤ s0 := le_of_not_lt hlt
      constructor
      · rw [List.map_cons, List.foldr_cons, h2, ← Nat.max_assoc, Nat.max_eq_left hxle]
      · rcases hdisj with h' | ⟨h3, h4⟩
        · exact Or.inl h'
        · refine Or.inr ⟨h3, ?_⟩
          rw [List.find?_cons_of_neg _ (by simp; omega), h4]

/-- What `process.extractOne` returns: the best score together with the
first choice attaining it. -/
theorem extractOne_spec (scorer : String → String → Nat) (q : String) (l : List String)
    (c : String) (s : Nat) (h : extractOne scorer q l = some (c, s)) :
    s = bestScoreOf scorer q l ∧
    l.find? (fun x => scorer q x == s) = some c := by
  match l, h with
  | c0 :: cs, h =>
    rw [extractOne] at h
    have hfold := Option.some.inj h
    obtain ⟨h2, hdisj⟩ := extractOne_go scorer q cs c0 (scorer q c0) (c, s) hfold
    simp only at h2
    constructor
    · rw [bestScoreOf, List.map_cons, List.foldr_cons]
      exact h2
    · rcases hdisj with h' | ⟨h3, h4⟩
      · have hc : c = c0 := congrArg Prod.fst h'
        have hs : s = scorer q c0 := congrArg Prod.snd h'
        subst hc
        rw [List.find?_cons_of_pos _ (by simp [hs])]
      · simp only at h3 h4
        rw [List.find?_cons_of_neg _ (by simp; omega), h4]

theorem lookupMap_cons (k v : String) (m : List (String × String)) (a : String) :
    lookupMap ((k, v) :: m) a = if k = a then some v else lookupMap m a := by
  rw [lookupMap, List.find?_cons]
  by_cases h : k = a
  · simp [h]
  · simp [h, lookupMap]

theorem lookupMap_buildNameMap (scorer : String → String → Nat) (rosterNames : List String) :
    ∀ (attNames : List String), attNames.Nodup → ∀ (a c : String),
    (lookupMap (buildNameMap scorer rosterNames attNames) a = some c ↔
      a ∈ attNames ∧ ∃ s, extractOne scorer a rosterNames = some (c, s) ∧ 90 ≤ s) := by
  intro attNames
  induction attNames with
  | nil =>
    intro _ a c
    simp [buildNameMap, lookupMap]
  | cons a0 as ih =>
    intro hnd a c
    rw [List.nodup_cons] at hnd
    have iha := ih hnd.2 a c
    rw [buildNameMap]
    cases hex : extractOne scorer a0 rosterNames with
    | none =>
      simp only []
      rw [iha]
      constructor
      · rintro ⟨hmem, s, hex2, hs2⟩
        exact ⟨List.mem_cons_of_mem _ hmem, s, hex2, hs2⟩
      · rintro ⟨hmem, s, hex2, hs2⟩
        rcases List.mem_cons.1 hmem with h | h
        · subst h
          rw [hex] at hex2
          cases hex2
        · exact ⟨h, s, hex2, hs2⟩
    | some p =>
      obtain ⟨c0, s0⟩ := p
      simp only []
      by_cases hs : 90 ≤ s0
      · rw [if_pos hs, lookupMap_cons]
        by_cases ha : a0 = a
        · subst ha
          rw [if_pos rfl]
          constructor
          · intro h
            have hc := Option.some.inj h
            subst hc
            exact ⟨List.mem_cons_self _ _, s0, hex, hs⟩
          · rintro ⟨-, s, hex2, hs2⟩
            rw [hex] at hex2
            have h5 := Option.some.inj hex2
            injection h5 with hc hs5
            rw [hc]
        · rw [if_neg ha, iha]
          constructor
          · rintro ⟨hmem, s, hex2, hs2⟩
            exact ⟨List.mem_cons_of_mem _ hmem, s, hex2, hs2⟩
          · rintro ⟨hmem, s, hex2, hs2⟩
            rcases List.mem_cons.1 hmem with h | h
            · exact absurd h.symm ha
            · exact ⟨h, s, hex2, hs2⟩
      · rw [if_neg hs, iha]
        constructor
        · rintro ⟨hmem, s, hex2, hs2⟩
          exact ⟨List.mem_cons_of_mem _ hmem, s, hex2, hs2⟩
        · rintro ⟨hmem, s, hex2, hs2⟩
          rcases List.mem_cons.1 hmem with h | h
          · subst h
            rw [hex] at hex2
            have h5 := Option.some.inj hex2
            injection h5 with hc hs5
            exact absurd (hs5 ▸ hs2) hs
          · exact ⟨h, s, hex2, hs2⟩

/-- C3: the reconciler maps a raw name to the single highest-scoring
canonical name exactly when the best score reaches the hard threshold 90
(so 90 maps, 89 does not), breaking ties by the first encountered
maximum; otherwise the raw name stays unmapped. -/
theorem nameReconciler_spec (scorer : String → String → Nat)
    (rosterNames attNames : List String) (hnd : attNames.Nodup) (a c : String) :
    lookupMap (buildNameMap scorer rosterNames attNames) a = some c ↔
      a ∈ attNames ∧ 90 ≤ bestScoreOf scorer a rosterNames ∧
      rosterNames.find? (fun cand => scorer a cand == bestScoreOf scorer a rosterNames) =
        some c := by
  rw [lookupMap_buildNameMap scorer rosterNames attNames hnd a c]
  constructor
  · rintro ⟨hmem, s, hex, hs⟩
    obtain ⟨hbs, hfind⟩ := extractOne_spec scorer a rosterNames c s hex
    exact ⟨hmem, hbs ▸ hs, hbs ▸ hfind⟩
  · rintro ⟨hmem, hbs, hfind⟩
    cases hrn : rosterNames with
    | nil =>
      rw [hrn] at hfind
      cases hfind
    | cons c0 cs =>
      rw [hrn] at hfind hbs
      have hex : ∃ p : String × Nat, extractOne scorer a (c0 :: cs) = some p :=
        ⟨_, rfl⟩
      obtain ⟨⟨c', s'⟩, hex⟩ := hex
      obtain ⟨hbs', hfind'⟩ := extractOne_spec scorer a (c0 :: cs) c' s' hex
      rw [← hbs'] at hfind
      have hcc : c' = c := Option.some.inj (hfind'.symm.trans hfind)
      subst hcc
      refine ⟨hmem, s', hex, ?_⟩
      rw [hbs']
      exact hbs

/-- Witness for C3: a best score of exactly 90 maps to the first
maximal candidate; a best score of 89 leaves the raw name unmapped. -/
theorem nameReconciler_spec_witness :
    lookupMap (buildNameMap (fun _ c => if c = "John Doe" then 90 else 89)
      ["Jane Roe", "John Doe"] ["J Doe"]) "J Doe" = some "John Doe" ∧
    lookupMap (buildNameMap (fun _ _ => 89) ["Jane Roe"] ["J Doe"]) "J Doe" = none := by
  constructor
  · exact (nameReconciler_spec (fun _ c => if c = "John Doe" then 90 else 89)
      ["Jane Roe", "John Doe"] ["J Doe"] (by decide) "J Doe" "John Doe").2
      ⟨by decide, by decide, by decide⟩
  · decide

/-- The five disjoint buckets of the spec's shift classification. -/
inductive ShiftCat where
  | wfo | wfh | wo | pl | uncat
deriving DecidableEq, Repr

/-- Spec-side classification of one shift code (§4.5): after upper-casing,
a WFO code, a WFH code, WO, PL, or uncategorized. -/
def classify (sched : String) : ShiftCat :=
  let s := schedNorm sched
  if s ∈ WFO_SCHEDULES then .wfo
  else if s ∈ WFH_SCHEDULES then .wfh
  else if s = "WO" then .wo
  else if s = "PL" then .pl
  else .uncat

theorem tallySchedules_go (step : CountAcc → RosterRec → CountAcc)
    (hstep : step = fun c e =>
      let schedule := schedNorm e.schedule
      if schedule ∈ WFO_SCHEDULES then { c with wfo := c.wfo + 1 }
      else if schedule ∈ WFH_SCHEDULES then { c with wfh := c.wfh + 1 }
      else if schedule = "WO" then { c with wo := c.wo + 1 }
      else if schedule = "PL" then { c with pl := c.pl + 1 }
      else c) :
    ∀ (entries : List RosterRec) (acc : CountAcc),
    entries.foldl step acc =
      ⟨acc.wfo + entries.countP (fun r => classify r.schedule = .wfo),
       acc.wfh + entries.countP (fun r => classify r.schedule = .wfh),
       acc.wo + entries.countP (fun r => classify r.schedule = .wo),
       acc.pl + entries.countP (fun r => classify r.schedule = .pl)⟩ := by
  intro entries
  induction entries with
  | nil =>
    intro acc
    simp [List.countP_nil]
  | cons e rest ih =>
    intro acc
    rw [List.foldl_cons, ih (step acc e)]
    simp only [hstep, List.countP_cons]
    by_cases h1 : schedNorm e.schedule ∈ WFO_SCHEDULES
    · have hcl : classify e.schedule = .wfo := by
        simp only [classify]
        rw [if_pos h1]
      rw [if_pos h1]
      simp only [hcl]
      simp
      omega
    · by_cases h2 : schedNorm e.schedule ∈ WFH_SCHEDULES
      · have hcl : classify e.schedule = .wfh := by
          simp only [classify]
          rw [if_neg h1, if_pos h2]
        rw [if_neg h1, if_pos h2]
        simp only [hcl]
        simp
        omega
      · by_cases h3 : schedNorm e.schedule = "WO"
        · have hcl : classify e.schedule = .wo := by
            simp only [classify]
            rw [if_neg h1, if_neg h2, if_pos h3]
          rw [if_neg h1, if_neg h2, if_pos h3]
          simp only [hcl]
          simp
          omega
        · by_cases h4 : schedNorm e.schedule = "PL"
          · have hcl : classify e.schedule = .pl := by
              simp only [classify]
              rw [if_neg h1, if_neg h2, if_neg h3, if_pos h4]
            rw [if_neg h1, if_neg h2, if_neg h3, if_pos h4]
            simp only [hcl]
            simp
            omega
          · have hcl : classify e.schedule = .uncat := by
              simp only [classify]
              rw [if_neg h1, if_neg h2, if_neg h3, if_neg h4]
            rw [if_neg h1, if_neg h2, if_neg h3, if_neg h4]
            simp only [hcl]
            simp

/-- The loop counters are exactly the per-category counts. -/
theorem tallySchedules_eq (entries : List RosterRec) :
    tallySchedules entries =
      ⟨entries.countP (fun r => classify r.schedule = .wfo),
       entries.countP (fun r => classify r.schedule = .wfh),
       entries.countP (fun r => classify r.schedule = .wo),
       entries.countP (fun r => classify r.schedule = .pl)⟩ := by
  rw [tallySchedules, tallySchedules_go _ rfl entries ⟨0, 0, 0, 0⟩]
  simp

/-- Every entry falls in exactly one bucket, so the five counts add up
to the number of entries. -/
theorem countP_classify_partition (entries : List RosterRec) :
    entries.countP (fun r => classify r.schedule = .wfo) +
    entries.countP (fun r => classify r.schedule = .wfh) +
    entries.countP (fun r => classify r.schedule = .wo) +
    entries.countP (fun r => classify r.schedule = .pl) +
    entries.countP (fun r => classify r.schedule = .uncat) = entries.length := by
  induction entries with
  | nil => simp
  | cons e rest ih =>
    simp only [List.countP_cons, List.length_cons]
    cases hc : classify e.schedule <;> simp [hc] <;> omega

/-- The per-category counts of a roster entry list (spec side). -/
def catCounts (entries : List RosterRec) : CountAcc :=
  ⟨entries.countP (fun r => classify r.schedule = .wfo),
   entries.countP (fun r => classify r.schedule = .wfh),
   entries.countP (fun r => classify r.schedule = .wo),
   entries.countP (fun r => classify r.schedule = .pl)⟩

/-- The entries of the list falling in no category (spec side). -/
def uncatCount (entries : List RosterRec) : Nat :=
  entries.countP (fun r => classify r.schedule = .uncat)

theorem mkCountResult_spec (rq : List RosterRec) (as : List AttRec) (s e : Date)
    (n : String) :
    (mkCountResult rq as s e n).employee = n ∧
    (mkCountResult rq as s e n).counts = catCounts (rq.filter (fun r => r.name = n)) ∧
    (mkCountResult rq as s e n).workingDays =
      (mkCountResult rq as s e n).counts.wfo + (mkCountResult rq as s e n).counts.wfh ∧
    (mkCountResult rq as s e n).leaves =
      (mkCountResult rq as s e n).counts.wo + (mkCountResult rq as s e n).counts.pl ∧
    (mkCountResult rq as s e n).workingDays + (mkCountResult rq as s e n).leaves +
      uncatCount (rq.filter (fun r => r.name = n)) =
      (rq.filter (fun r => r.name = n)).length := by
  refine ⟨rfl, ?_, ?_, ?_, ?_⟩
  · simp only [mkCountResult, tallySchedules_eq, catCounts]
  · rfl
  · rfl
  · simp only [mkCountResult, tallySchedules_eq, uncatCount]
    have := countP_classify_partition (rq.filter (fun r => r.name = n))
    omega

theorem performCount_ok_range (p : QueryParams) (rs : List RosterRec) (as : List AttRec)
    (results : List CountResult) (hok : performCount p rs as = .ok results) :
    ∃ se : Date × Date, getDateRange p.startDate p.endDate as = some se := by
  rw [performCount] at hok
  split at hok
  · cases hok
  · split at hok
    · cases hok
    · rename_i heq
      exact ⟨_, heq⟩

theorem performCount_ok_shape (p : QueryParams) (rs : List RosterRec) (as : List AttRec)
    (s e : Date) (results : List CountResult)
    (heq : getDateRange p.startDate p.endDate as = some (s, e))
    (hok : performCount p rs as = .ok results) :
    results = [] ∨ ∃ names : List String,
      results = names.map
        (mkCountResult (rs.filter (fun r => dinRange s e r.date)) as s e) := by
  rw [performCount] at hok
  split at hok
  · cases hok
  · simp only [heq] at hok
    split at hok
    · split at hok
      · cases hok
      · exact Or.inr ⟨_, (Resp.ok.inj hok).symm⟩
    · split at hok
      · split at hok
        · cases hok
        · exact Or.inr ⟨_, (Resp.ok.inj hok).symm⟩
      · exact Or.inl (Resp.ok.inj hok).symm

/-- C7: every count result reports per-category tallies over the roster
entries of that employee in the resolved range; each entry lands in
exactly one of WFO/WFH/WO/PL/uncategorized, so working days + leaves +
uncategorized = total entries. -/
theorem performCount_partition (p : QueryParams) (rs : List RosterRec) (as : List AttRec)
    (results : List CountResult) (hok : performCount p rs as = .ok results)
    (res : CountResult) (hres : res ∈ results) :
    ∃ s e : Date, getDateRange p.startDate p.endDate as = some (s, e) ∧
      res.counts = catCounts ((rs.filter (fun r => dinRange s e r.date)).filter
        (fun r => r.name = res.employee)) ∧
      res.workingDays = res.counts.wfo + res.counts.wfh ∧
      res.leaves = res.counts.wo + res.counts.pl ∧
      res.workingDays + res.leaves +
        uncatCount ((rs.filter (fun r => dinRange s e r.date)).filter
          (fun r => r.name = res.employee)) =
        ((rs.filter (fun r => dinRange s e r.date)).filter
          (fun r => r.name = res.employee)).length := by
  obtain ⟨⟨s, e⟩, heq⟩ := performCount_ok_range p rs as results hok
  refine ⟨s, e, heq, ?_⟩
  rcases performCount_ok_shape p rs as s e results heq hok with hempty | ⟨names, hmap⟩
  · subst hempty
    cases hres
  · subst hmap
    obtain ⟨n, _, rfl⟩ := List.mem_map.1 hres
    obtain ⟨h1, h2, h3, h4, h5⟩ := mkCountResult_spec
      (rs.filter (fun r => dinRange s e r.date)) as s e n
    rw [h1]
    exact ⟨h2, h3, h4, h5⟩

/-- Concrete one-row roster store used by witnesses. -/
def wRoster : List RosterRec := [⟨"Ann", ⟨2024, 3, 5⟩, some "T1", "WFO-M"⟩]

/-- Concrete count query (explicit March 2024 range, name query `ann`). -/
def wParams : QueryParams :=
  ⟨some "ann", none, none, none, some ⟨2024, 3, 1⟩, some ⟨2024, 3, 31⟩⟩

/-- The count result the store above produces. -/
def wResult : CountResult :=
  ⟨"Ann", none, ⟨2024, 3, 1⟩, ⟨2024, 3, 31⟩, ⟨1, 0, 0, 0⟩, 1, 0⟩

/-- Witness for C7: the concrete count result satisfies the partition
identity. -/
theorem performCount_partition_witness :
    ∃ s e : Date,
      getDateRange wParams.startDate wParams.endDate [] = some (s, e) ∧
      wResult.counts = catCounts ((wRoster.filter (fun r => dinRange s e r.date)).filter
        (fun r => r.name = wResult.employee)) ∧
      wResult.workingDays = wResult.counts.wfo + wResult.counts.wfh ∧
      wResult.leaves = wResult.counts.wo + wResult.counts.pl ∧
      wResult.workingDays + wResult.leaves +
        uncatCount ((wRoster.filter (fun r => dinRange s e r.date)).filter
          (fun r => r.name = wResult.employee)) =
        ((wRoster.filter (fun r => dinRange s e r.date)).filter
          (fun r => r.name = wResult.employee)).length :=
  performCount_partition wParams wRoster [] [wResult] (by decide) wResult (by decide)

theorem mem_lowAttsOf (s e : Date) (attStore : List AttRec) (a : AttRec) :
    a ∈ lowAttsOf s e attStore ↔
      a ∈ attStore ∧ dinRange s e a.date = true ∧
        timeLtb a.netOfficeTime eightHours = true := by
  rw [lowAttsOf, List.mem_mergeSort, List.mem_filter]
  simp [Bool.and_eq_true, and_assoc]

theorem keyedLookup_eq_some {α : Type} (key : α → String × Date) (pool : List α)
    (k : String × Date) (hnd : (pool.map key).Nodup) (r : α) :
    keyedLookup key pool k = some r ↔ r ∈ pool ∧ key r = k := by
  constructor
  · intro h
    rw [keyedLookup] at h
    have hm := List.mem_reverse.1 (List.mem_of_find?_eq_some h)
    have hp := List.find?_some h
    simp only [decide_eq_true_eq] at hp
    exact ⟨hm, hp⟩
  · rintro ⟨hmem, hkey⟩
    rw [keyedLookup]
    cases hfind : pool.reverse.find? (fun x => key x = k) with
    | none =>
      rw [List.find?_eq_none] at hfind
      have := hfind r (List.mem_reverse.2 hmem)
      simp [hkey] at this
    | some x =>
      have hx := List.find?_some hfind
      have hxm := List.mem_reverse.1 (List.mem_of_find?_eq_some hfind)
      simp only [decide_eq_true_eq] at hx
      have hxr : x = r := List.inj_on_of_nodup_map hnd hxm hmem (hx.trans hkey.symm)
      rw [hxr]

theorem nodup_keys_filter (p : RosterRec → Bool) (rs : List RosterRec)
    (hnd : (rs.map rosterKey).Nodup) : ((rs.filter p).map rosterKey).Nodup :=
  List.Nodup.sublist (List.Sublist.map rosterKey (List.filter_sublist rs)) hnd

/-- Membership in the join produced by either low-hours variant. -/
theorem exclJoin_mem (excl : RosterRec → Bool) (s e : Date) (rs : List RosterRec)
    (as : List AttRec) (hnd : (rs.map rosterKey).Nodup) (x : LowRow) :
    x ∈ (lowAttsOf s e as).filterMap (fun a =>
      (keyedLookup rosterKey
        (exclRosterPool excl s e ((lowAttsOf s e as).map (·.name)) rs)
        (a.name, a.date)).map (mkLowRow a)) ↔
    ∃ a r, a ∈ as ∧ dinRange s e a.date = true ∧
      timeLtb a.netOfficeTime eightHours = true ∧
      r ∈ rs ∧ r.name = a.name ∧ r.date = a.date ∧ excl r = false ∧
      x = mkLowRow a r := by
  have hndp : ((exclRosterPool excl s e ((lowAttsOf s e as).map (·.name)) rs).map
      rosterKey).Nodup := nodup_keys_filter _ rs hnd
  rw [List.mem_filterMap]
  constructor
  · rintro ⟨a, ha, hf⟩
    rw [Option.map_eq_some'] at hf
    obtain ⟨r, hlook, hmk⟩ := hf
    rw [keyedLookup_eq_some rosterKey _ _ hndp r] at hlook
    obtain ⟨hpool, hkey⟩ := hlook
    rw [exclRosterPool, List.mem_filter] at hpool
    obtain ⟨hrs, hcond⟩ := hpool
    simp only [Bool.and_eq_true, Bool.not_eq_true'] at hcond
    obtain ⟨⟨-, -⟩, hexcl⟩ := hcond
    rw [mem_lowAttsOf] at ha
    have hkn : r.name = a.name := congrArg Prod.fst hkey
    have hkd : r.date = a.date := congrArg Prod.snd hkey
    exact ⟨a, r, ha.1, ha.2.1, ha.2.2, hrs, hkn, hkd, hexcl, hmk.symm⟩
  · rintro ⟨a, r, has, hin, hlow, hrs, hname, hdate, hexcl, hx⟩
    have halow : a ∈ lowAttsOf s e as := (mem_lowAttsOf s e as a).2 ⟨has, hin, hlow⟩
    refine ⟨a, halow, ?_⟩
    have hpool : r ∈ exclRosterPool excl s e ((lowAttsOf s e as).map (·.name)) rs := by
      rw [exclRosterPool, List.mem_filter]
      refine ⟨hrs, ?_⟩
      simp only [Bool.and_eq_true, Bool.not_eq_true', decide_eq_true_eq]
      refine ⟨⟨?_, ?_⟩, hexcl⟩
      · rw [hdate]
        exact hin
      · rw [hname]
        exact List.mem_map.2 ⟨a, halow, rfl⟩
    have hlook : keyedLookup rosterKey
        (exclRosterPool excl s e ((lowAttsOf s e as).map (·.name)) rs)
        (a.name, a.date) = some r :=
      (keyedLookup_eq_some rosterKey _ _ hndp r).2
        ⟨hpool, by rw [rosterKey, hname, hdate]⟩
    rw [hlook, hx]
    rfl

theorem lowHoursExcl_false_iff (r : RosterRec) :
    lowHoursExcl r = false ↔
      ¬(iexactS r.schedule "PL" = true ∨ iexactS r.schedule "WO" = true) := by
  rw [lowHoursExcl]
  cases h1 : iexactS r.schedule "PL" <;> cases h2 : iexactS r.schedule "WO" <;> simp

theorem nonPlExcl_false_iff (r : RosterRec) :
    nonPlExcl r = false ↔ ¬(iexactS r.schedule "PL" = true) := by
  rw [nonPlExcl]
  cases h1 : iexactS r.schedule "PL" <;> simp

/-- C5: `low_hours` returns exactly the in-range attendance records with
net office time strictly under 8:00:00 joined to the same-`(name, date)`
roster entry whose shift is neither PL nor WO (case-insensitively);
`non_pl_low_hours` is identical except that only PL is excluded, so a
WO-day record stays eligible. -/
theorem lowHours_spec (p : QueryParams) (rs : List RosterRec) (as : List AttRec)
    (s e : Date) (hnd : (rs.map rosterKey).Nodup)
    (heq : getDateRange p.startDate p.endDate as = some (s, e)) :
    (∃ out, findLowHours p rs as = .ok out ∧ ∀ x : LowRow,
      (x ∈ out ↔ ∃ a r, a ∈ as ∧ dinRange s e a.date = true ∧
        timeLtb a.netOfficeTime eightHours = true ∧
        r ∈ rs ∧ r.name = a.name ∧ r.date = a.date ∧
        ¬(iexactS r.schedule "PL" = true ∨ iexactS r.schedule "WO" = true) ∧
        x = mkLowRow a r)) ∧
    (∃ out, findNonPlLowHours p rs as = .ok out ∧ ∀ x : LowRow,
      (x ∈ out ↔ ∃ a r, a ∈ as ∧ dinRange s e a.date = true ∧
        timeLtb a.netOfficeTime eightHours = true ∧
        r ∈ rs ∧ r.name = a.name ∧ r.date = a.date ∧
        ¬(iexactS r.schedule "PL" = true) ∧
        x = mkLowRow a r)) := by
  constructor
  · refine ⟨_, by rw [findLowHours, heq], ?_⟩
    intro x
    rw [lowRosterPool, exclJoin_mem lowHoursExcl s e rs as hnd x]
    simp only [lowHoursExcl_false_iff]
  · refine ⟨_, by rw [findNonPlLowHours, heq], ?_⟩
    intro x
    rw [nonPlRosterPool, exclJoin_mem nonPlExcl s e rs as hnd x]
    simp only [nonPlExcl_false_iff]

/-- An attendance record for Ann with 7:59:00 net office time. -/
def wAtt : AttRec :=
  ⟨"Ann", ⟨2024, 3, 5⟩, some "E1", none, none, none, none, none, none, none,
    none, none, some ⟨7, 59, 0⟩⟩

/-- Witness for C5: the 7:59 WFO-M day is flagged by `low_hours`. -/
theorem lowHours_spec_witness :
    ∃ out, findLowHours wParams wRoster [wAtt] = .ok out ∧
      mkLowRow wAtt ⟨"Ann", ⟨2024, 3, 5⟩, some "T1", "WFO-M"⟩ ∈ out := by
  obtain ⟨⟨out, hok, hiff⟩, -⟩ := lowHours_spec wParams wRoster [wAtt]
    ⟨2024, 3, 1⟩ ⟨2024, 3, 31⟩ (by decide) (by decide)
  refine ⟨out, hok, (hiff _).2 ?_⟩
  exact ⟨wAtt, ⟨"Ann", ⟨2024, 3, 5⟩, some "T1", "WFO-M"⟩, by decide, by decide,
    by decide, by decide, by decide, by decide, by decide, rfl⟩

/-- What one attendance row contributes: nothing when its date did not
parse, a record otherwise; an exception if a time conversion raises. -/
def attRowRecord (pt : String → Option Time) (r : PAttRow) :
    Except String (Option AttRec) :=
  match r.row.attendanceDate with
  | none => .ok none
  | some d =>
    match buildAttRec pt r.name d r.row with
    | .error e => .error e
    | .ok rec => .ok (some rec)

/-- The record sequence an attendance ingestion run upserts. -/
def attRecords (pt : String → Option Time) : List PAttRow → Except String (List AttRec)
  | [] => .ok []
  | r :: rs =>
    match attRowRecord pt r with
    | .error e => .error e
    | .ok none => attRecords pt rs
    | .ok (some rec) =>
      match attRecords pt rs with
      | .error e => .error e
      | .ok recs => .ok (rec :: recs)

/-- The ingestion loop is the fold of upserts over the row records. -/
theorem processAttendanceData_eq (pt : String → Option Time) :
    ∀ (rows : List PAttRow) (store : List AttRec),
    processAttendanceData pt store rows =
      (attRecords pt rows).map (foldUpsert attKey store) := by
  intro rows
  induction rows with
  | nil => intro store; rfl
  | cons r rest ih =>
    intro store
    cases hd : r.row.attendanceDate with
    | none =>
      simp only [processAttendanceData, attRecords, attRowRecord, hd]
      rw [ih store]
    | some d =>
      cases hb : buildAttRec pt r.name d r.row with
      | error e =>
        simp only [processAttendanceData, attRecords, attRowRecord, hd, hb]
        rfl
      | ok rec =>
        simp only [processAttendanceData, attRecords, attRowRecord, hd, hb]
        rw [ih (upsertBy attKey rec store)]
        cases hr : attRecords pt rest with
        | error e => rfl
        | ok recs => rfl

theorem uniqueFirst_go_nodup {α : Type} [DecidableEq α] :
    ∀ (l acc : List α), acc.Nodup →
    (l.foldl (fun acc a => if a ∈ acc then acc else acc ++ [a]) acc).Nodup := by
  intro l
  induction l with
  | nil => intro acc h; exact h
  | cons a rest ih =>
    intro acc h
    rw [List.foldl_cons]
    by_cases ha : a ∈ acc
    · rw [if_pos ha]
      exact ih acc h
    · rw [if_neg ha]
      refine ih _ (List.Nodup.append h (List.nodup_singleton _) ?_)
      intro x hx hx2
      simp only [List.mem_singleton] at hx2
      subst hx2
      exact ha hx

/-- `pandas.unique` yields distinct values. -/
theorem uniqueFirst_nodup {α : Type} [DecidableEq α] (l : List α) :
    (uniqueFirst l).Nodup :=
  uniqueFirst_go_nodup l [] List.nodup_nil

theorem buildNameMap_keys_sublist (scorer : String → String → Nat)
    (rosterNames : List String) :
    ∀ attNames : List String,
    ((buildNameMap scorer rosterNames attNames).map Prod.fst).Sublist attNames := by
  intro attNames
  induction attNames with
  | nil => simp [buildNameMap]
  | cons a as ih =>
    rw [buildNameMap]
    cases hex : extractOne scorer a rosterNames with
    | none =>
      simp only
      exact ih.cons a
    | some p =>
      obtain ⟨c, s⟩ := p
      simp only
      by_cases hs : 90 ≤ s
      · rw [if_pos hs, List.map_cons]
        exact ih.cons₂ a
      · rw [if_neg hs]
        exact ih.cons a

theorem lookupMap_of_mem : ∀ (m : List (String × String)),
    (m.map Prod.fst).Nodup → ∀ (a c : String), (a, c) ∈ m → lookupMap m a = some c := by
  intro m
  induction m with
  | nil => intro _ a c h; cases h
  | cons kv rest ih =>
    intro hnd a c h
    obtain ⟨k, v⟩ := kv
    rw [List.map_cons, List.nodup_cons] at hnd
    rcases List.mem_cons.1 h with h' | h'
    · injection h' with hk hv
      subst hk
      subst hv
      rw [lookupMap, List.find?_cons_of_pos _ (by simp)]
      rfl
    · have hk : k ≠ a := by
        intro hka
        subst hka
        exact hnd.1 (List.mem_map.2 ⟨(k, c), h', rfl⟩)
      rw [lookupMap, List.find?_cons_of_neg _ (by simp [hk]), ← lookupMap]
      exact ih hnd.2 a c h'

theorem mem_buildNameMap (scorer : String → String → Nat) (rosterNames : List String) :
    ∀ (attNames : List String) (pr : String × String),
    pr ∈ buildNameMap scorer rosterNames attNames →
    ∃ s, extractOne scorer pr.1 rosterNames = some (pr.2, s) ∧ 90 ≤ s := by
  intro attNames
  induction attNames with
  | nil => intro pr h; cases h
  | cons a as ih =>
    intro pr h
    rw [buildNameMap] at h
    cases hex : extractOne scorer a rosterNames with
    | none =>
      rw [hex] at h
      exact ih pr h
    | some p =>
      obtain ⟨c, s⟩ := p
      rw [hex] at h
      simp only [] at h
      by_cases hs : 90 ≤ s
      · rw [if_pos hs] at h
        rcases List.mem_cons.1 h with h' | h'
        · subst h'
          exact ⟨s, hex, hs⟩
        · exact ih pr h'
      · rw [if_neg hs] at h
        exact ih pr h

/-- Every mapped canonical name is drawn from the roster's name list. -/
theorem matched_mem_rosterNames (scorer : String → String → Nat)
    (rosterDf : List RosterRow) (attDf : List AttRow) (c : String)
    (h : c ∈ matchedNames scorer rosterDf attDf) : c ∈ rosterNamesOf rosterDf := by
  rw [matchedNames] at h
  obtain ⟨pr, hpr, hc⟩ := List.mem_map.1 h
  obtain ⟨s, hex, -⟩ := mem_buildNameMap scorer _ _ pr hpr
  obtain ⟨-, hfind⟩ := extractOne_spec scorer pr.1 _ pr.2 s hex
  exact hc ▸ List.mem_of_find?_eq_some hfind

/-- Every mapped canonical name is the image of some raw attendance name. -/
theorem matched_has_raw (scorer : String → String → Nat)
    (rosterDf : List RosterRow) (attDf : List AttRow) (c : String)
    (h : c ∈ matchedNames scorer rosterDf attDf) :
    ∃ raw, lookupMap (uploadNameMap scorer rosterDf attDf) raw = some c := by
  rw [matchedNames] at h
  obtain ⟨pr, hpr, hc⟩ := List.mem_map.1 h
  refine ⟨pr.1, ?_⟩
  have hnd : ((uploadNameMap scorer rosterDf attDf).map Prod.fst).Nodup :=
    (buildNameMap_keys_sublist scorer _ (attNamesOf attDf)).nodup
      (uniqueFirst_nodup _)
  exact hc ▸ lookupMap_of_mem _ hnd pr.1 pr.2 (by rw [Prod.mk.eta]; exact hpr)

theorem mem_rosterRowRecords_name (y m : Nat) (row : PRosterRow) (rec : RosterRec)
    (h : rec ∈ rosterRowRecords y m row) : rec.name = row.name := by
  rw [rosterRowRecords, List.mem_filterMap] at h
  obtain ⟨cell, -, hf⟩ := h
  cases hdig : digitsToNat cell.1 with
  | none => rw [hdig] at hf; cases hf
  | some day =>
    rw [hdig] at hf
    simp only [] at hf
    by_cases hv : isValidDate y m day
    · rw [if_pos hv] at hf
      exact (Option.some.inj hf) ▸ rfl
    · rw [if_neg hv] at hf
      cases hf

theorem mem_filteredRosterRows (scorer : String → String → Nat)
    (rosterDf : List RosterRow) (attDf : List AttRow) (prow : PRosterRow)
    (h : prow ∈ filteredRosterRows scorer rosterDf attDf) :
    prow.name ∈ matchedNames scorer rosterDf attDf := by
  rw [filteredRosterRows, List.mem_filterMap] at h
  obtain ⟨row, -, hf⟩ := h
  cases hn : row.name with
  | none => rw [hn] at hf; cases hf
  | some n =>
    rw [hn] at hf
    simp only [] at hf
    by_cases hm : n ∈ matchedNames scorer rosterDf attDf
    · rw [if_pos hm] at hf
      exact (Option.some.inj hf) ▸ hm
    · rw [if_neg hm] at hf
      cases hf

theorem mem_filteredAttRows (scorer : String → String → Nat)
    (rosterDf : List RosterRow) (attDf : List AttRow) (prow : PAttRow)
    (h : prow ∈ filteredAttRows scorer rosterDf attDf) :
    ∃ raw, lookupMap (uploadNameMap scorer rosterDf attDf) raw = some prow.name := by
  rw [filteredAttRows, List.mem_filterMap] at h
  obtain ⟨row, -, hf⟩ := h
  cases hn : row.rawName.bind (lookupMap (uploadNameMap scorer rosterDf attDf)) with
  | none => rw [hn] at hf; cases hf
  | some cn =>
    rw [hn] at hf
    obtain ⟨raw, hraw, hlook⟩ := Option.bind_eq_some.1 hn
    exact ⟨raw, by rw [hlook, ← Option.some.inj hf]⟩

theorem lookupMap_mem_values (m : List (String × String)) (a c : String)
    (h : lookupMap m a = some c) : c ∈ m.map (fun x => x.2) := by
  rw [lookupMap] at h
  cases hf : m.find? (fun p => p.1 = a) with
  | none => rw [hf] at h; cases h
  | some pr =>
    rw [hf] at h
    exact (Option.some.inj h) ▸ List.mem_map.2 ⟨pr, List.mem_of_find?_eq_some hf, rfl⟩

theorem buildAttRec_ok (pt : String → Option Time) (name : String) (d : Date)
    (row : AttRow) (rec : AttRec) (h : buildAttRec pt name d row = .ok rec) :
    rec.name = name ∧ rec.date = d := by
  rw [buildAttRec] at h
  split at h
  · cases h
  · split at h
    · cases h
    · split at h
      · cases h
      · split at h
        · cases h
        · split at h
          · cases h
          · rw [← Except.ok.inj h]
            exact ⟨rfl, rfl⟩

theorem attRowRecord_some (pt : String → Option Time) (r : PAttRow) (rec : AttRec)
    (h : attRowRecord pt r = .ok (some rec)) : rec.name = r.name := by
  rw [attRowRecord] at h
  cases hd : r.row.attendanceDate with
  | none => rw [hd] at h; cases h
  | some d =>
    rw [hd] at h
    simp only [] at h
    cases hb : buildAttRec pt r.name d r.row with
    | error e => rw [hb] at h; cases h
    | ok rec0 =>
      rw [hb] at h
      simp only [] at h
      have : rec0 = rec := Option.some.inj (Except.ok.inj h)
      exact this ▸ (buildAttRec_ok pt r.name d r.row rec0 hb).1

theorem attRecords_names (pt : String → Option Time) :
    ∀ (rows : List PAttRow) (recs : List AttRec), attRecords pt rows = .ok recs →
    ∀ rec ∈ recs, ∃ prow ∈ rows, rec.name = prow.name := by
  intro rows
  induction rows with
  | nil =>
    intro recs h rec hrec
    rw [attRecords] at h
    rw [← Except.ok.inj h] at hrec
    cases hrec
  | cons r rest ih =>
    intro recs h rec hrec
    rw [attRecords] at h
    cases hrr : attRowRecord pt r with
    | error e => rw [hrr] at h; cases h
    | ok orec =>
      rw [hrr] at h
      cases orec with
      | none =>
        obtain ⟨prow, hp, hn⟩ := ih recs h rec hrec
        exact ⟨prow, List.mem_cons_of_mem r hp, hn⟩
      | some rec0 =>
        simp only [] at h
        cases hrest : attRecords pt rest with
        | error e => rw [hrest] at h; cases h
        | ok recs' =>
          rw [hrest] at h
          rw [← Except.ok.inj h] at hrec
          rcases List.mem_cons.1 hrec with h' | h'
          · subst h'
            exact ⟨r, List.mem_cons_self r rest, attRowRecord_some pt r rec hrr⟩
          · obtain ⟨prow, hp, hn⟩ := ih recs' hrest rec h'
            exact ⟨prow, List.mem_cons_of_mem r hp, hn⟩

theorem processAtt_mem_names (pt : String → Option Time) (rows : List PAttRow)
    (store t : List AttRec) (h : processAttendanceData pt store rows = .ok t) :
    ∀ rec ∈ t, rec ∈ store ∨ ∃ prow ∈ rows, rec.name = prow.name := by
  rw [processAttendanceData_eq] at h
  cases hr : attRecords pt rows with
  | error e => rw [hr] at h; cases h
  | ok recs =>
    rw [hr] at h
    have ht : t = foldUpsert attKey store recs := (Except.ok.inj h).symm
    intro rec hrec
    rcases mem_foldUpsert (ht ▸ hrec) with h1 | h1
    · exact Or.inl h1
    · exact Or.inr (attRecords_names pt rows recs hr rec h1)

/-- C1: every record the upload persists, in both stores, carries a name
from the roster's canonical name set, and an attendance row whose raw
name found no confident mapping is never persisted (each stored name is
the image of some mapped raw name, and is a non-null string by type). -/
theorem uploadPost_canonical_names (scorer : String → String → Nat)
    (pt : String → Option Time) (rosterDf : List RosterRow) (attDf : List AttRow)
    (rs0 : List RosterRec) (as0 : List AttRec) (rs1 : List RosterRec) (as1 : List AttRec)
    (h : uploadPost scorer pt rosterDf attDf (rs0, as0) = .ok (rs1, as1)) :
    (∀ rec ∈ rs1, rec ∉ rs0 →
      rec.name ∈ rosterNamesOf rosterDf ∧
      ∃ raw, lookupMap (uploadNameMap scorer rosterDf attDf) raw = some rec.name) ∧
    (∀ rec ∈ as1, rec ∉ as0 →
      rec.name ∈ rosterNamesOf rosterDf ∧
      ∃ raw, lookupMap (uploadNameMap scorer rosterDf attDf) raw = some rec.name) := by
  rw [uploadPost] at h
  cases hfv : firstValidDate attDf with
  | none => rw [hfv] at h; cases h
  | some fv =>
    rw [hfv] at h
    simp only [] at h
    cases hpa : processAttendanceData pt as0 (filteredAttRows scorer rosterDf attDf) with
    | error e => rw [hpa] at h; cases h
    | ok as2 =>
      rw [hpa] at h
      simp only [] at h
      have hpair := Except.ok.inj h
      have hrs : rs1 = processRosterData rs0 (filteredRosterRows scorer rosterDf attDf)
          fv.year fv.month := (congrArg Prod.fst hpair).symm
      have has : as1 = as2 := (congrArg Prod.snd hpair).symm
      constructor
      · intro rec hrec hnot
        rw [hrs, processRosterData] at hrec
        rcases mem_foldUpsert hrec with h1 | h1
        · exact absurd h1 hnot
        · rw [List.mem_flatMap] at h1
          obtain ⟨prow, hpmem, hprec⟩ := h1
          have hname := mem_rosterRowRecords_name _ _ _ _ hprec
          have hmatch := mem_filteredRosterRows scorer rosterDf attDf prow hpmem
          rw [hname]
          exact ⟨matched_mem_rosterNames _ _ _ _ hmatch, matched_has_raw _ _ _ _ hmatch⟩
      · intro rec hrec hnot
        rw [has] at hrec
        rcases processAtt_mem_names pt _ as0 as2 hpa rec hrec with h1 | ⟨prow, hp, hn⟩
        · exact absurd h1 hnot
        · obtain ⟨raw, hraw⟩ := mem_filteredAttRows scorer rosterDf attDf prow hp
          rw [hn]
          have hmatch : prow.name ∈ matchedNames scorer rosterDf attDf := by
            rw [matchedNames]
            exact lookupMap_mem_values _ _ _ hraw
          exact ⟨matched_mem_rosterNames _ _ _ _ hmatch, ⟨raw, hraw⟩⟩

/-- Exact-match scorer used in the concrete upload runs. -/
def wScorer : String → String → Nat := fun a b => if a == b then 100 else 0

/-- One-person roster sheet: Bob, team T1, day-1 cell WFO-M. -/
def wRosterDf : List RosterRow := [⟨some "Bob", some "T1", [("1", "WFO-M")]⟩]

/-- One attendance row for raw name Bob dated 2024-03-05. -/
def wAttRow : AttRow :=
  ⟨some "E1", some "Bob", none, none, none, none, .missing, .missing, .missing,
    .missing, none, .missing, some ⟨2024, 3, 5⟩⟩

/-- Witness for C1: the record persisted for Bob carries the canonical
roster name, reached through the name map. -/
theorem uploadPost_canonical_names_witness :
    "Bob" ∈ rosterNamesOf wRosterDf ∧
    ∃ raw, lookupMap (uploadNameMap wScorer wRosterDf [wAttRow]) raw = some "Bob" := by
  have h : uploadPost wScorer (fun _ => none) wRosterDf [wAttRow] ([], []) =
      .ok ([⟨"Bob", ⟨2024, 3, 1⟩, some "T1", "WFO-M"⟩],
           [⟨"Bob", ⟨2024, 3, 5⟩, some "E1", none, none, none, none, none, none,
             none, none, none, none⟩]) := by decide
  exact (uploadPost_canonical_names wScorer (fun _ => none) wRosterDf [wAttRow]
    [] [] _ _ h).1 ⟨"Bob", ⟨2024, 3, 1⟩, some "T1", "WFO-M"⟩ (by decide) (by decide)

/-- Two-person roster sheet: Alice (no attendance) and Bob. -/
def wRosterDf2 : List RosterRow :=
  [⟨some "Alice", some "T1", [("1", "WO")]⟩, ⟨some "Bob", some "T1", [("1", "WFO-M")]⟩]

/-- Counterexample to C2: Alice appears in the roster sheet, the upload
succeeds, yet no roster record for Alice is persisted — line 62 keeps
only rows whose name is among the matched names ("Only matched records
were saved"). -/
theorem rosterUnmatchedDropped_cex :
    (∃ row ∈ wRosterDf2, row.name = some "Alice") ∧
    uploadPost wScorer (fun _ => none) wRosterDf2 [wAttRow] ([], []) =
      .ok ([⟨"Bob", ⟨2024, 3, 1⟩, some "T1", "WFO-M"⟩],
           [⟨"Bob", ⟨2024, 3, 5⟩, some "E1", none, none, none, none, none, none,
             none, none, none, none⟩]) ∧
    (∀ rec ∈ [(⟨"Bob", ⟨2024, 3, 1⟩, some "T1", "WFO-M"⟩ : RosterRec)],
      rec.name ≠ "Alice") := by decide

/-- Amended C2: a roster person is persisted by the upload only when some
attendance raw name reconciles to that person's canonical name; rows of
matched persons are persisted for each of their valid day cells. -/
theorem rosterPersist_only_matched (scorer : String → String → Nat)
    (pt : String → Option Time) (rosterDf : List RosterRow) (attDf : List AttRow)
    (rs0 : List RosterRec) (as0 : List AttRec) (rs1 : List RosterRec) (as1 : List AttRec)
    (fv : Date) (hfv : firstValidDate attDf = some fv)
    (h : uploadPost scorer pt rosterDf attDf (rs0, as0) = .ok (rs1, as1)) :
    (∀ rec ∈ rs1, rec ∉ rs0 → rec.name ∈ matchedNames scorer rosterDf attDf) ∧
    (∀ prow ∈ filteredRosterRows scorer rosterDf attDf,
      ∀ rec ∈ rosterRowRecords fv.year fv.month prow,
        rosterKey rec ∈ rs1.map rosterKey) := by
  rw [uploadPost, hfv] at h
  simp only [] at h
  cases hpa : processAttendanceData pt as0 (filteredAttRows scorer rosterDf attDf) with
  | error e => rw [hpa] at h; cases h
  | ok as2 =>
    rw [hpa] at h
    simp only [] at h
    have hpair := Except.ok.inj h
    have hrs : rs1 = processRosterData rs0 (filteredRosterRows scorer rosterDf attDf)
        fv.year fv.month := (congrArg Prod.fst hpair).symm
    constructor
    · intro rec hrec hnot
      rw [hrs, processRosterData] at hrec
      rcases mem_foldUpsert hrec with h1 | h1
      · exact absurd h1 hnot
      · rw [List.mem_flatMap] at h1
        obtain ⟨prow, hpmem, hprec⟩ := h1
        exact mem_rosterRowRecords_name _ _ _ _ hprec ▸
          mem_filteredRosterRows scorer rosterDf attDf prow hpmem
    · intro prow hpmem rec hprec
      rw [hrs, processRosterData]
      exact key_mem_foldUpsert (List.mem_flatMap.2 ⟨prow, hpmem, hprec⟩)

/-- Witness for amended C2 at the Alice/Bob input: Bob's record is
persisted (its key is present) and its name is a matched name. -/
theorem rosterPersist_only_matched_witness :
    (⟨"Bob", ⟨2024, 3, 1⟩, some "T1", "WFO-M"⟩ : RosterRec).name ∈
      matchedNames wScorer wRosterDf2 [wAttRow] ∧
    rosterKey ⟨"Bob", ⟨2024, 3, 1⟩, some "T1", "WFO-M"⟩ ∈
      ([(⟨"Bob", ⟨2024, 3, 1⟩, some "T1", "WFO-M"⟩ : RosterRec)]).map rosterKey := by
  have h : uploadPost wScorer (fun _ => none) wRosterDf2 [wAttRow] ([], []) =
      .ok ([⟨"Bob", ⟨2024, 3, 1⟩, some "T1", "WFO-M"⟩],
           [⟨"Bob", ⟨2024, 3, 5⟩, some "E1", none, none, none, none, none, none,
             none, none, none, none⟩]) := by decide
  obtain ⟨h1, h2⟩ := rosterPersist_only_matched wScorer (fun _ => none) wRosterDf2
    [wAttRow] [] [] _ _ ⟨2024, 3, 5⟩ (by decide) h
  exact ⟨h1 ⟨"Bob", ⟨2024, 3, 1⟩, some "T1", "WFO-M"⟩ (by decide) (by decide),
    h2 ⟨"Bob", some "T1", [("1", "WFO-M")]⟩ (by decide)
      ⟨"Bob", ⟨2024, 3, 1⟩, some "T1", "WFO-M"⟩ (by decide)⟩

/-- C8: with unique `(name, date)` keys in the stores, uploading the same
pair of files a second time leaves both stores exactly as after the
first ingestion, and neither ingestion ever creates a duplicate key. -/
theorem uploadPost_idempotent (scorer : String → String → Nat)
    (pt : String → Option Time) (rosterDf : List RosterRow) (attDf : List AttRow)
    (rs0 : List RosterRec) (as0 : List AttRec) (rs1 : List RosterRec) (as1 : List AttRec)
    (hndr : (rs0.map rosterKey).Nodup) (hnda : (as0.map attKey).Nodup)
    (h : uploadPost scorer pt rosterDf attDf (rs0, as0) = .ok (rs1, as1)) :
    uploadPost scorer pt rosterDf attDf (rs1, as1) = .ok (rs1, as1) ∧
    (rs1.map rosterKey).Nodup ∧ (as1.map attKey).Nodup := by
  rw [uploadPost] at h
  cases hfv : firstValidDate attDf with
  | none => rw [hfv] at h; cases h
  | some fv =>
    rw [hfv] at h
    simp only [] at h
    cases hpa : processAttendanceData pt as0 (filteredAttRows scorer rosterDf attDf) with
    | error e => rw [hpa] at h; cases h
    | ok as2 =>
      rw [hpa] at h
      simp only [] at h
      have hpair := Except.ok.inj h
      have hrs : rs1 = processRosterData rs0 (filteredRosterRows scorer rosterDf attDf)
          fv.year fv.month := (congrArg Prod.fst hpair).symm
      have has : as1 = as2 := (congrArg Prod.snd hpair).symm
      rw [processAttendanceData_eq] at hpa
      cases har : attRecords pt (filteredAttRows scorer rosterDf attDf) with
      | error e => rw [har] at hpa; cases hpa
      | ok recs =>
        rw [har] at hpa
        have has2 : as2 = foldUpsert attKey as0 recs := (Except.ok.inj hpa).symm
        have hroster2 : processRosterData rs1 (filteredRosterRows scorer rosterDf attDf)
            fv.year fv.month = rs1 := by
          rw [hrs, processRosterData, processRosterData]
          exact foldUpsert_idem hndr
        have hatt2 : processAttendanceData pt as1
            (filteredAttRows scorer rosterDf attDf) = .ok as1 := by
          rw [processAttendanceData_eq, har, has, has2]
          exact congrArg Except.ok (foldUpsert_idem hnda)
        refine ⟨?_, ?_, ?_⟩
        · rw [uploadPost, hfv]
          simp only [hatt2, hroster2]
        · rw [hrs, processRosterData]
          exact nodup_keys_foldUpsert hndr
        · rw [has, has2]
          exact nodup_keys_foldUpsert hnda

/-- Witness for C8: re-uploading Bob's files is a no-op on the stores. -/
theorem uploadPost_idempotent_witness :
    uploadPost wScorer (fun _ => none) wRosterDf [wAttRow]
      ([⟨"Bob", ⟨2024, 3, 1⟩, some "T1", "WFO-M"⟩],
       [⟨"Bob", ⟨2024, 3, 5⟩, some "E1", none, none, none, none, none, none,
         none, none, none, none⟩]) =
      .ok ([⟨"Bob", ⟨2024, 3, 1⟩, some "T1", "WFO-M"⟩],
           [⟨"Bob", ⟨2024, 3, 5⟩, some "E1", none, none, none, none, none, none,
             none, none, none, none⟩]) :=
  (uploadPost_idempotent wScorer (fun _ => none) wRosterDf [wAttRow] [] [] _ _
    (by decide) (by decide) (by decide)).1

/-- C9: a roster cell whose day is not a valid calendar day contributes
nothing while the rest of the row survives, and an attendance row whose
date failed to parse is skipped while the rest of the file is processed;
neither failure aborts ingestion. -/
theorem ingestion_local_skip :
    (∀ (y m : Nat) (n : String) (t : Option String)
      (cells1 cells2 : List (String × String)) (col sched : String) (day : Nat),
      digitsToNat col = some day → isValidDate y m day = false →
      rosterRowRecords y m ⟨n, t, cells1 ++ (col, sched) :: cells2⟩ =
        rosterRowRecords y m ⟨n, t, cells1 ++ cells2⟩) ∧
    (∀ (pt : String → Option Time) (store : List AttRec)
      (rows1 rows2 : List PAttRow) (bad : PAttRow),
      bad.row.attendanceDate = none →
      processAttendanceData pt store (rows1 ++ bad :: rows2) =
        processAttendanceData pt store (rows1 ++ rows2)) := by
  constructor
  · intro y m n t cells1 cells2 col sched day hdig hval
    rw [rosterRowRecords, rosterRowRecords]
    simp only [List.filterMap_append, List.filterMap_cons, hdig, hval,
      Bool.false_eq_true, if_false]
  · intro pt store rows1 rows2 bad hbad
    induction rows1 generalizing store with
    | nil =>
      rw [List.nil_append, List.nil_append, processAttendanceData, hbad]
    | cons r rest ih =>
      rw [List.cons_append, List.cons_append]
      cases hd : r.row.attendanceDate with
      | none =>
        simp only [processAttendanceData, hd]
        exact ih store
      | some d =>
        cases hb : buildAttRec pt r.name d r.row with
        | error e =>
          simp only [processAttendanceData, hd, hb]
        | ok rec =>
          simp only [processAttendanceData, hd, hb]
          exact ih (upsertBy attKey rec store)

/-- A parsed attendance row whose date cell failed to parse. -/
def wBadAttRow : PAttRow :=
  ⟨"Bob", ⟨some "E1", some "Bob", none, none, none, none, .missing, .missing,
    .missing, .missing, none, .missing, none⟩⟩

/-- Witness for C9: day 30 is invalid for February 2023 and that cell is
skipped; a row with an unparseable date is skipped. -/
theorem ingestion_local_skip_witness :
    rosterRowRecords 2023 2 ⟨"Ann", some "T1", [("30", "PL"), ("15", "WFO-M")]⟩ =
      rosterRowRecords 2023 2 ⟨"Ann", some "T1", [("15", "WFO-M")]⟩ ∧
    processAttendanceData (fun _ => none) [] [wBadAttRow] =
      processAttendanceData (fun _ => none) [] [] :=
  ⟨ingestion_local_skip.1 2023 2 "Ann" (some "T1") [] [("15", "WFO-M")] "30" "PL" 30
      (by decide) (by decide),
   ingestion_local_skip.2 (fun _ => none) [] [] [] wBadAttRow (by decide)⟩

/-- A search by an id that matches no attendance record. -/
def cexParams : QueryParams :=
  ⟨none, some "ZZ", none, none, some ⟨2024, 3, 1⟩, some ⟨2024, 3, 31⟩⟩

/-- Counterexample to C10: on the search action an id filter matching no
employee yields the empty 200 payload (`Response([])`, line 280), not
the not-found status. -/
theorem searchIdNoMatch_cex :
    performSearch cexParams wRoster [wAtt] = .ok [] ∧
    ∀ msg, performSearch cexParams wRoster [wAtt] ≠ Resp.notFound msg := by
  have h : performSearch cexParams wRoster [wAtt] = .ok [] := by decide
  exact ⟨h, fun msg hm => by rw [h] at hm; cases hm⟩

/-- Amended C10: count without `q` and `id` is a client error, distinct
from not-found; no-match on the count action is not-found; but the
search action answers an id miss with an empty OK payload.  (The query
handlers are read-only: they are functions of the stores and return
only a response.) -/
theorem queryErrors_spec (p : QueryParams) (rs : List RosterRec) (as : List AttRec) :
    (truthy p.q = false → truthy p.id = false →
      performCount p rs as =
        .badRequest "A name query (q=...) or an ID query (id=...) is required.") ∧
    (∀ s e : Date, getDateRange p.startDate p.endDate as = some (s, e) →
      truthy p.id = true → countNamesById (p.id.getD "") as s e = [] →
      performCount p rs as = .notFound ("No employee found with ID " ++ p.id.getD "")) ∧
    (∀ s e : Date, getDateRange p.startDate p.endDate as = some (s, e) →
      truthy p.id = false → truthy p.q = true →
      countNamesByQuery (p.q.getD "") (rs.filter (fun r => dinRange s e r.date)) = [] →
      performCount p rs as = .notFound ("No employee found matching " ++ p.q.getD "")) ∧
    (∀ msg msg2 : String, (Resp.badRequest msg : Resp (List CountResult)) ≠ .notFound msg2) ∧
    (∀ s e : Date, getDateRange p.startDate p.endDate as = some (s, e) →
      truthy p.id = true →
      uniqueFirst ((as.filter (fun a =>
        oiexact a.employeeId (p.id.getD "") && dinRange s e a.date)).map (·.name)) = [] →
      performSearch p rs as = .ok []) := by
  refine ⟨?_, ?_, ?_, ?_, ?_⟩
  · intro hq hid
    rw [performCount, if_pos]
    constructor <;> simp [hq, hid]
  · intro s e heq hid hempty
    rw [performCount, if_neg (by simp [hid])]
    simp only [heq]
    rw [if_pos hid, hempty]
    simp
  · intro s e heq hid hq hempty
    rw [performCount, if_neg (by simp [hq])]
    simp only [heq]
    rw [if_neg (by simp [hid]), if_pos hq, hempty]
    simp
  · intro msg msg2 h
    cases h
  · intro s e heq hid hempty
    rw [performSearch]
    simp only [heq, hid, hempty]
    simp

/-- Witness for amended C10: missing both filters is a bad request, and
the concrete id miss on search produces the empty OK payload. -/
theorem queryErrors_spec_witness :
    performCount ⟨none, none, none, none, none, none⟩ [] [] =
      .badRequest "A name query (q=...) or an ID query (id=...) is required." ∧
    performSearch cexParams wRoster [wAtt] = .ok [] := by
  refine ⟨(queryErrors_spec ⟨none, none, none, none, none, none⟩ [] []).1 rfl rfl, ?_⟩
  exact (queryErrors_spec cexParams wRoster [wAtt]).2.2.2.2 ⟨2024, 3, 1⟩ ⟨2024, 3, 31⟩
    (by decide) rfl (by decide)
